import Mathlib

/-!
Verification development for the flatback library (src/index.js).

The library drives a suspendable routine (a generator) by classifying each
yielded value (`getNextResult`), fanning callback results back in
(`handleFunction`), fanning an array of sub-requests out (`handleArray`),
and exposing a one-shot adapter (`once`).  The definitions below are a
shallow embedding of those functions:

* JavaScript values are modelled by `JVal`; a promise carries its eventual
  outcome, a function carries its declared arity (its `length` property).
* `getNextResult` is modelled as a pure classifier returning a `Handling`
  value; the `deferCallback` constructor records that the callback is
  scheduled through `setTimeout(..., 0)`, i.e. on a later turn of the event
  loop, never synchronously.
* `handleFunction` allocates `arity + 1` completion slots.  Each slot
  invocation is an event `(index, arguments)`; the task itself is modelled
  by `TaskBehavior`: the slot invocations it performs synchronously, its
  synchronous outcome (return value or thrown error), and the slot
  invocations performed later from asynchronous callbacks.  `runSlots`
  replays a list of slot-invocation events against the shared state
  (`waitingFlags`, `results`, `waitingCount`), emitting the aggregate
  result exactly as the source does when the countdown reaches zero.
* `handleArray` drives each element of the array; an element's interaction
  with its inner callback is abstracted as `ElemOutcome`: the inner
  callback fires either synchronously during initiation (`sync`) or on a
  later turn (`async`), with a success value or an error.  The order in
  which asynchronous completions arrive is an explicit schedule (a list of
  element indices) folded with `haAsyncStep`.  `waitingCount` is an `Int`
  because the source decrements a plain counter with no lower guard.
* `once` is modelled by the dispatch it performs on the `(err, result)`
  pair its inner callback receives.
-/

set_option maxHeartbeats 1000000

namespace Flatback

/-- JavaScript runtime values, as far as the library inspects them.
A `prom` carries the promise's eventual outcome; `typeError` models a
TypeError instance carrying its message; `genFn`, `asyncFn` and `obj`
model generator functions, async functions and plain (possibly thenable)
objects, which the classifier must reject. -/
inductive JVal where
  | undefinedV
  | jsNull
  | bool (b : Bool)
  | num (n : Int)
  | str (s : String)
  | arr (elems : List JVal)
  | fn (arity : Nat)
  | prom (outcome : Except JVal JVal)
  | typeError (msg : String)
  | genFn
  | asyncFn
  | obj (thenable : Bool)

/-- `Object.prototype.toString.call(value).slice(8, -1)` — the class string
the classifier dispatches on (src/index.js line 110). -/
def jsClassString : JVal → String
  | .undefinedV => "Undefined"
  | .jsNull => "Null"
  | .bool _ => "Boolean"
  | .num _ => "Number"
  | .str _ => "String"
  | .arr _ => "Array"
  | .fn _ => "Function"
  | .prom _ => "Promise"
  | .typeError _ => "Error"
  | .genFn => "GeneratorFunction"
  | .asyncFn => "AsyncFunction"
  | .obj _ => "Object"

mutual

/-- `String(value)` — the printable form interpolated into the
classification error message.  Arrays stringify as the comma-join of their
elements, primitives as in JavaScript; the callable and object categories
stringify to their usual source/`[object ...]` forms. -/
def jsString : JVal → String
  | .undefinedV => "undefined"
  | .jsNull => "null"
  | .bool b => if b then "true" else "false"
  | .num n => toString n
  | .str s => s
  | .arr xs => String.intercalate "," (jsStringList xs)
  | .fn _ => "function () \x7b\x7d"
  | .prom _ => "[object Promise]"
  | .typeError m => "TypeError: " ++ m
  | .genFn => "function* () \x7b\x7d"
  | .asyncFn => "async function () \x7b\x7d"
  | .obj _ => "[object Object]"

/-- `jsString` mapped over a list (structural helper for array elements). -/
def jsStringList : List JVal → List String
  | [] => []
  | x :: xs => jsString x :: jsStringList xs

end

/-- The elements of an array value (`[]` on non-arrays, unreachable in the
branches that use it). -/
def arrElems : JVal → List JVal
  | .arr xs => xs
  | _ => []

/-- The declared parameter count of a function value (`value.length`). -/
def fnArity : JVal → Nat
  | .fn n => n
  | _ => 0

/-- The eventual outcome carried by a promise value. -/
def promOutcome : JVal → Except JVal JVal
  | .prom o => o
  | _ => .ok .undefinedV

/-- The message of the TypeError built at src/index.js line 144, including
its original spelling. -/
def typeErrorMessage (v : JVal) : String :=
  "You may only yield a function, promise, undefined or an array of these to flatback.  Recieved "
    ++ jsClassString v ++ ": " ++ jsString v

/-- `sub` occurs contiguously inside `msg`. -/
def strContains (msg sub : String) : Prop :=
  ∃ a b, msg.data = a ++ sub.data ++ b

/-- What `getNextResult` decides to do with a yielded value.
`deferCallback res` means the resumption callback is scheduled with
`setTimeout(..., 0)` — a later scheduling turn — carrying `res` as its
`(err, result)` payload.  `runArray` and `runFunction` delegate to
`handleArray` / `handleFunction`; `callNoArgs` is the immediate invocation
of a zero-arity function; `failTypeError` is the synchronous classification
failure. -/
inductive Handling where
  | deferCallback (res : Except JVal JVal)
  | runArray (elems : List JVal)
  | callNoArgs
  | runFunction (arity : Nat)
  | failTypeError (e : JVal)

/-- src/index.js lines 109-146: classify a yielded value by its class
string and dispatch. -/
def getNextResult (value : JVal) : Handling :=
  let classString := jsClassString value
  if classString = "Undefined" then
    .deferCallback (.ok (.arr []))
  else if classString = "Array" then
    if (arrElems value).length = 0 then
      .deferCallback (.ok (.arr []))
    else
      .runArray (arrElems value)
  else if classString = "Function" then
    if fnArity value = 0 then
      .callNoArgs
    else
      .runFunction (fnArity value)
  else if classString = "Promise" then
    .deferCallback (promOutcome value)
  else
    .failTypeError (.typeError (typeErrorMessage value))

/-- src/index.js lines 122-128: a zero-arity function is invoked
immediately; a synchronous throw becomes the failure, otherwise the result
is the empty sequence (the return value is discarded). -/
def runZeroArityTask (outcome : Except JVal JVal) : Except JVal (List JVal) :=
  match outcome with
  | .error e => .error e
  | .ok _ => .ok []

/-- The single externally visible action `once` performs after its request
resolves: apply the success callback to the result elements, call the
failure callback with the error, or rethrow the error into the caller's
environment. -/
inductive OnceEffect where
  | callSuccess (args : List JVal)
  | callFailure (e : JVal)
  | throwErr (e : JVal)

/-- src/index.js lines 34-44: the dispatch `once` performs on the
`(err, result)` pair delivered by `getNextResult`, given whether a
`rejectedCallback` was supplied. -/
def once (res : Except JVal (List JVal)) (hasRejectedCallback : Bool) : OnceEffect :=
  match res with
  | .error err =>
    if hasRejectedCallback then .callFailure err else .throwErr err
  | .ok result => .callSuccess result

/-! ## Callback fan-in aggregator (`handleFunction`) -/

/-- The aggregate result emitted to the main callback: `results[1]` when
the task declares a single callback, `results.slice(1)` otherwise
(src/index.js lines 203-209). -/
inductive AggResult where
  | flat (args : List JVal)
  | nested (argLists : List (List JVal))

/-- The shared state of one `handleFunction` invocation: a fired-flag and a
first-invocation-arguments cell per slot, plus the countdown. -/
structure HFState where
  waitingFlags : List Bool
  results : List (Option (List JVal))
  waitingCount : Nat

/-- Shape the emitted aggregate according to the declared arity
(src/index.js lines 204-208). -/
def emitAggregate (arity : Nat) (results : List (Option (List JVal))) : AggResult :=
  if arity = 1 then
    .flat ((results.getD 1 none).getD [])
  else
    .nested ((results.drop 1).map (fun o => o.getD []))

/-- One invocation of completion slot `index` with arguments `args`
(src/index.js lines 198-211): if the slot is still waiting, capture the
arguments, mark it fired, decrement the countdown, and emit the aggregate
when the countdown reaches zero; otherwise do nothing. -/
def fireSlot (arity : Nat) (st : HFState) (index : Nat) (args : List JVal) :
    HFState × Option AggResult :=
  if st.waitingFlags.getD index false then
    let flags := st.waitingFlags.set index false
    let results := st.results.set index (some args)
    let count := st.waitingCount - 1
    if count = 0 then
      (⟨flags, results, count⟩, some (emitAggregate arity results))
    else
      (⟨flags, results, count⟩, none)
  else
    (st, none)

/-- Replay a list of slot-invocation events in order, collecting every
aggregate emission. -/
def runSlots (arity : Nat) (st : HFState) (events : List (Nat × List JVal)) :
    HFState × List AggResult :=
  match events with
  | [] => (st, [])
  | (index, args) :: rest =>
    let fired := fireSlot arity st index args
    let next := runSlots arity fired.1 rest
    (next.1, fired.2.toList ++ next.2)

/-- The initial state allocated by `handleFunction` (src/index.js lines
186-189): `arity + 1` waiting slots, slot 0 reserved for the task body
having returned. -/
def initHF (arity : Nat) : HFState :=
  ⟨List.replicate (arity + 1) true, List.replicate (arity + 1) none, arity + 1⟩

/-- How one concrete run of the task interacts with its slots: the slot
invocations it performs synchronously before returning or throwing, its
synchronous outcome, and the slot invocations its asynchronous callbacks
perform on later turns. -/
structure TaskBehavior where
  syncEvents : List (Nat × List JVal)
  outcome : Except JVal JVal
  asyncEvents : List (Nat × List JVal)

/-- The full temporal sequence of slot invocations: the task's synchronous
calls, then — only when the task returned instead of throwing — the firing
of slot 0 with the (discarded) return value (src/index.js line 221), then
the asynchronous calls. -/
def taskEvents (t : TaskBehavior) : List (Nat × List JVal) :=
  t.syncEvents
    ++ (match t.outcome with
        | .ok v => [(0, [v])]
        | .error _ => [])
    ++ t.asyncEvents

/-- src/index.js lines 185-222: run the task against fresh slots.  The
first component is every aggregate emission, the second the error passed
to the main callback when the synchronous invocation threw (line 218). -/
def handleFunction (arity : Nat) (t : TaskBehavior) : List AggResult × Option JVal :=
  ((runSlots arity (initHF arity) (taskEvents t)).2,
   match t.outcome with
   | .ok _ => none
   | .error e => some e)

/-- The arguments of the first invocation of slot `index` performed by the
task itself (empty if the slot never fires). -/
def firstCallArgs (t : TaskBehavior) (index : Nat) : List JVal :=
  (((t.syncEvents ++ t.asyncEvents).find? (fun e => e.1 = index)).map Prod.snd).getD []

/-! ## Collection fan-out aggregator (`handleArray`) -/

/-- How one array element behaves once handed to `getNextResult`: its inner
callback fires either synchronously during initiation or on a later turn,
with a success value or an error. -/
inductive ElemOutcome where
  | sync (res : Except JVal JVal)
  | async (res : Except JVal JVal)

/-- Element fails synchronously. -/
def isSyncErrB : ElemOutcome → Bool
  | .sync (.error _) => true
  | _ => false

/-- Element succeeds synchronously. -/
def isSyncOkB : ElemOutcome → Bool
  | .sync (.ok _) => true
  | _ => false

/-- Element completes on a later turn. -/
def isAsyncB : ElemOutcome → Bool
  | .async _ => true
  | _ => false

/-- Element completes on a later turn with a success. -/
def isAsyncOkB : ElemOutcome → Bool
  | .async (.ok _) => true
  | _ => false

/-- Element completes on a later turn with an error. -/
def isAsyncErrB : ElemOutcome → Bool
  | .async (.error _) => true
  | _ => false

/-- The success value an element delivers (`undefinedV` placeholder for failing
elements, whose value is never stored). -/
def elemValue : ElemOutcome → JVal
  | .sync (.ok r) => r
  | .async (.ok r) => r
  | _ => .undefinedV

/-- The element at an index; out-of-range indices yield a harmless
synchronous success, so that they can never act as pending asynchronous
completions. -/
def elemAt (elems : List ElemOutcome) (index : Nat) : ElemOutcome :=
  elems.getD index (.sync (.ok .undefinedV))

/-- The shared state of one `handleArray` invocation (src/index.js lines
157-159), plus bookkeeping observable in the claims: which elements were
handed to `getNextResult` at all, and every invocation of the main
callback.  `waitingCount` is an `Int` exactly like the unguarded JavaScript
counter. -/
structure HAState where
  firstErr : Option JVal
  results : List (Option JVal)
  waitingCount : Int
  initiated : List Bool
  emissions : List (Except JVal (List JVal))

/-- The inner callback handed to `getNextResult` for element `index`
(src/index.js lines 162-173): the first error wins and is emitted at once;
anything arriving after an error is discarded; a success is stored at the
element's index and the countdown decremented, emitting the ordered
results when it reaches zero. -/
def haDeliver (st : HAState) (index : Nat) (res : Except JVal JVal) : HAState :=
  match st.firstErr, res with
  | some _, _ => st
  | none, .error e =>
    { st with firstErr := some e, emissions := st.emissions ++ [Except.error e] }
  | none, .ok r =>
    let results := st.results.set index (some r)
    let waitingCount := st.waitingCount - 1
    if waitingCount = 0 then
      { st with results := results, waitingCount := waitingCount,
                emissions := st.emissions ++ [Except.ok (results.map (fun o => o.getD JVal.undefinedV))] }
    else
      { st with results := results, waitingCount := waitingCount }

/-- One iteration of the initiation loop (src/index.js lines 160-175): if
an error has already been recorded the element is never initiated;
otherwise it is handed to `getNextResult`, and a synchronous completion is
delivered on the spot. -/
def haSyncStep (st : HAState) (index : Nat) (elem : ElemOutcome) : HAState :=
  if st.firstErr.isSome then
    st
  else
    let started := { st with initiated := st.initiated.set index true }
    match elem with
    | .sync res => haDeliver started index res
    | .async _ => started

/-- The `valueArray.forEach` initiation loop, in list order starting at
`index`. -/
def haSync (elems : List ElemOutcome) (index : Nat) (st : HAState) : HAState :=
  match elems with
  | [] => st
  | e :: rest => haSync rest (index + 1) (haSyncStep st index e)

/-- Arrival of the deferred completion of element `index` on a later turn:
only an element that was actually initiated and classified as asynchronous
has a pending callback to deliver. -/
def haAsyncStep (elems : List ElemOutcome) (st : HAState) (index : Nat) : HAState :=
  if st.initiated.getD index false then
    match elemAt elems index with
    | .async res => haDeliver st index res
    | .sync _ => st
  else
    st

/-- The state allocated at src/index.js lines 157-159. -/
def initHA (n : Nat) : HAState :=
  { firstErr := none, results := List.replicate n none, waitingCount := (n : Int),
    initiated := List.replicate n false, emissions := [] }

/-- src/index.js lines 156-176: initiate every element in list order, then
let the pending asynchronous completions arrive in the order given by
`sched`. -/
def handleArray (elems : List ElemOutcome) (sched : List Nat) : HAState :=
  sched.foldl (haAsyncStep elems) (haSync elems 0 (initHA elems.length))

/-- The number of synchronously succeeding elements, as an integer. -/
def countSyncOk (l : List ElemOutcome) : Int :=
  (l.countP isSyncOkB : Int)

end Flatback

namespace Flatback

/-! ## Classifier theorems -/

lemma getNextResult_reject (v : JVal)
    (h1 : jsClassString v ≠ "Undefined") (h2 : jsClassString v ≠ "Array")
    (h3 : jsClassString v ≠ "Function") (h4 : jsClassString v ≠ "Promise") :
    getNextResult v = .failTypeError (.typeError (typeErrorMessage v)) := by
  simp only [getNextResult, if_neg h1, if_neg h2, if_neg h3, if_neg h4]

lemma data_typeErrorMessage (v : JVal) :
    (typeErrorMessage v).data
      = ("You may only yield a function, promise, undefined or an array of these to flatback.  Recieved ").data
        ++ (jsClassString v).data ++ (": ").data ++ (jsString v).data := by
  simp [typeErrorMessage, String.data_append]

end Flatback

namespace Flatback

/-- Claim C6: an undefined request, an empty array request and a promise
request are all resolved through `deferCallback`, i.e. through a
`setTimeout(..., 0)` that runs on a later scheduling turn — never
synchronously within the suspension's own turn nor within the promise's
completion notification — and for the first two the deferred success value
is the empty sequence. -/
theorem trivial_and_promise_resolution_deferred :
    getNextResult .undefinedV = .deferCallback (.ok (.arr [])) ∧
    getNextResult (.arr []) = .deferCallback (.ok (.arr [])) ∧
    ∀ o, getNextResult (.prom o) = .deferCallback o :=
  ⟨rfl, rfl, fun _ => rfl⟩

/-- Closed instance of `trivial_and_promise_resolution_deferred`. -/
theorem trivial_and_promise_resolution_deferred_witness :
    getNextResult (.prom (.ok (.num 3))) = .deferCallback (.ok (.num 3)) :=
  trivial_and_promise_resolution_deferred.2.2 (.ok (.num 3))

/-- Claim C7: a yielded value whose class string is none of the four
accepted ones fails synchronously with a TypeError whose message contains
the value's runtime category name and its printable `String` form; being a
TypeError built by the classifier, it is distinguishable from a task's own
error value, which is propagated unmodified. -/
theorem malformed_request_error_message (v : JVal)
    (h : jsClassString v ∉ (["Undefined", "Array", "Function", "Promise"] : List String)) :
    getNextResult v = .failTypeError (.typeError (typeErrorMessage v)) ∧
    strContains (typeErrorMessage v) (jsClassString v) ∧
    strContains (typeErrorMessage v) (jsString v) := by
  simp only [List.mem_cons, List.mem_singleton, not_or] at h
  obtain ⟨h1, h2, h3, h4, -⟩ := h
  refine ⟨getNextResult_reject v h1 h2 h3 h4, ?_, ?_⟩
  · exact ⟨("You may only yield a function, promise, undefined or an array of these to flatback.  Recieved ").data,
      (": ").data ++ (jsString v).data, by simp [data_typeErrorMessage]⟩
  · exact ⟨("You may only yield a function, promise, undefined or an array of these to flatback.  Recieved ").data
      ++ (jsClassString v).data ++ (": ").data, [], by simp [data_typeErrorMessage]⟩

/-- Closed instance of `malformed_request_error_message` at the number 42:
the message contains "Number" and "42". -/
theorem malformed_request_error_message_witness :
    jsClassString (JVal.num 42) ∉ (["Undefined", "Array", "Function", "Promise"] : List String) ∧
    getNextResult (JVal.num 42) = .failTypeError (.typeError (typeErrorMessage (JVal.num 42))) ∧
    strContains (typeErrorMessage (JVal.num 42)) "Number" ∧
    strContains (typeErrorMessage (JVal.num 42)) "42" := by
  have h : jsClassString (JVal.num 42) ∉ (["Undefined", "Array", "Function", "Promise"] : List String) := by
    decide
  have hmain := malformed_request_error_message (JVal.num 42) h
  have hcls : jsClassString (JVal.num 42) = "Number" := rfl
  have hstr : jsString (JVal.num 42) = "42" := rfl
  refine ⟨h, hmain.1, ?_, ?_⟩
  · have := hmain.2.1; rwa [hcls] at this
  · have := hmain.2.2; rwa [hstr] at this

/-- Claim C9: `once` performs exactly one externally visible action: on a
success it applies the success callback to the result elements and never
touches the failure callback; on a failure it calls the failure callback
with the error when one was supplied, and rethrows the error into the
caller's environment when none was. -/
theorem once_invokes_single_handler :
    (∀ r b, once (.ok r) b = .callSuccess r) ∧
    (∀ e, once (.error e) true = .callFailure e) ∧
    (∀ e, once (.error e) false = .throwErr e) :=
  ⟨fun _ _ => rfl, fun _ => rfl, fun _ => rfl⟩

/-- Closed instance of `once_invokes_single_handler`. -/
theorem once_invokes_single_handler_witness :
    once (.ok [JVal.num 1, JVal.num 2]) true = .callSuccess [JVal.num 1, JVal.num 2] ∧
    once (.error (JVal.num 7)) false = .throwErr (JVal.num 7) :=
  ⟨once_invokes_single_handler.1 [JVal.num 1, JVal.num 2] true,
   once_invokes_single_handler.2.2 (JVal.num 7)⟩

/-- Claim C10: classification dispatches on the exact class string; any
value whose class string is not one of "Undefined", "Array", "Function" or
"Promise" is rejected with the classification TypeError — in particular
generator functions, async functions and non-promise thenable objects,
whose class strings are "GeneratorFunction", "AsyncFunction" and "Object". -/
theorem classifier_rejects_unknown_class_strings :
    (∀ v : JVal, jsClassString v ≠ "Undefined" → jsClassString v ≠ "Array" →
        jsClassString v ≠ "Function" → jsClassString v ≠ "Promise" →
        getNextResult v = .failTypeError (.typeError (typeErrorMessage v))) ∧
    getNextResult .genFn = .failTypeError (.typeError (typeErrorMessage .genFn)) ∧
    getNextResult .asyncFn = .failTypeError (.typeError (typeErrorMessage .asyncFn)) ∧
    getNextResult (.obj true) = .failTypeError (.typeError (typeErrorMessage (.obj true))) :=
  ⟨fun v h1 h2 h3 h4 => getNextResult_reject v h1 h2 h3 h4, rfl, rfl, rfl⟩

/-- Closed instance of `classifier_rejects_unknown_class_strings`. -/
theorem classifier_rejects_unknown_class_strings_witness :
    getNextResult (.str "boom")
      = .failTypeError (.typeError (typeErrorMessage (.str "boom"))) :=
  classifier_rejects_unknown_class_strings.1 (.str "boom")
    (by decide) (by decide) (by decide) (by decide)

end Flatback

namespace Flatback

/-! ## Generic list helpers -/

lemma getD_set_self {α : Type} (l : List α) (i : Nat) (a d : α) (h : i < l.length) :
    (l.set i a).getD i d = a := by
  rw [List.getD_eq_getElem?_getD, List.getElem?_set_self h]
  rfl

lemma getD_set_ne {α : Type} (l : List α) {i j : Nat} (a d : α) (h : i ≠ j) :
    (l.set i a).getD j d = l.getD j d := by
  rw [List.getD_eq_getElem?_getD, List.getD_eq_getElem?_getD, List.getElem?_set_ne h]

lemma getD_true_lt (l : List Bool) (i : Nat) (h : l.getD i false = true) :
    i < l.length := by
  by_contra hlt
  push_neg at hlt
  rw [List.getD_eq_getElem?_getD, List.getElem?_eq_none (by omega)] at h
  simp at h

lemma getD_mem_or_default {α : Type} (l : List α) (i : Nat) (d : α) :
    l.getD i d ∈ l ∨ l.getD i d = d := by
  rcases Nat.lt_or_ge i l.length with hlt | hge
  · left
    rw [List.getD_eq_getElem?_getD, List.getElem?_eq_getElem hlt]
    exact List.getElem_mem hlt
  · right
    rw [List.getD_eq_getElem?_getD, List.getElem?_eq_none (by omega)]
    rfl

lemma count_true_set_false (l : List Bool) (j : Nat) (h : l.getD j false = true) :
    (l.set j false).count true + 1 = l.count true := by
  induction l generalizing j with
  | nil => simp [List.getD] at h
  | cons b t ih =>
    cases j with
    | zero =>
      simp only [List.getD_cons_zero] at h
      subst h
      simp [List.count_cons]
    | succ j =>
      have := ih j (by simpa using h)
      simp only [List.set_cons_succ, List.count_cons]
      omega

lemma bool_not_true {b : Bool} (h : ¬ b = true) : b = false := by
  cases b
  · rfl
  · exact absurd rfl h

/-! ## Slot-state lemmas for `handleFunction` -/

lemma fireSlot_fst (arity : Nat) (st : HFState) (index : Nat) (args : List JVal) :
    (fireSlot arity st index args).1
      = if st.waitingFlags.getD index false = true
        then ⟨st.waitingFlags.set index false, st.results.set index (some args),
              st.waitingCount - 1⟩
        else st := by
  by_cases h : st.waitingFlags.getD index false = true
  · rw [if_pos h]
    unfold fireSlot
    rw [if_pos h]
    by_cases hc : st.waitingCount - 1 = 0
    · rw [if_pos hc, hc]
    · rw [if_neg hc]
  · rw [if_neg h]
    unfold fireSlot
    rw [if_neg h]

lemma fireSlot_not_waiting (arity : Nat) (st : HFState) (index : Nat) (args : List JVal)
    (h : st.waitingFlags.getD index false = false) :
    fireSlot arity st index args = (st, none) := by
  unfold fireSlot
  rw [if_neg (by rw [h]; exact Bool.false_ne_true)]

lemma runSlots_cons_fst (arity : Nat) (st : HFState) (j : Nat) (args : List JVal)
    (rest : List (Nat × List JVal)) :
    (runSlots arity st ((j, args) :: rest)).1
      = (runSlots arity (fireSlot arity st j args).1 rest).1 := by
  rfl

lemma runSlots_cons_snd (arity : Nat) (st : HFState) (j : Nat) (args : List JVal)
    (rest : List (Nat × List JVal)) :
    (runSlots arity st ((j, args) :: rest)).2
      = (fireSlot arity st j args).2.toList
          ++ (runSlots arity (fireSlot arity st j args).1 rest).2 := by
  rfl

lemma runSlots_lengths (arity : Nat) (events : List (Nat × List JVal)) : ∀ st : HFState,
    ((runSlots arity st events).1.waitingFlags.length = st.waitingFlags.length) ∧
    ((runSlots arity st events).1.results.length = st.results.length) := by
  induction events with
  | nil => intro st; exact ⟨rfl, rfl⟩
  | cons ev rest ih =>
    intro st
    obtain ⟨j, args⟩ := ev
    rw [runSlots_cons_fst, fireSlot_fst]
    by_cases hf : st.waitingFlags.getD j false = true
    · rw [if_pos hf]
      have h := ih ⟨st.waitingFlags.set j false, st.results.set j (some args),
        st.waitingCount - 1⟩
      refine ⟨?_, ?_⟩
      · rw [h.1]; exact List.length_set ..
      · rw [h.2]; exact List.length_set ..
    · rw [if_neg hf]
      exact ih st

lemma runSlots_flag (arity : Nat) (events : List (Nat × List JVal)) :
    ∀ (st : HFState) (i : Nat),
    ((runSlots arity st events).1.waitingFlags.getD i false = true)
      ↔ (st.waitingFlags.getD i false = true ∧ i ∉ events.map Prod.fst) := by
  induction events with
  | nil =>
    intro st i
    simp only [runSlots, List.map_nil, List.not_mem_nil, not_false_iff, and_true]
  | cons ev rest ih =>
    intro st i
    obtain ⟨j, args⟩ := ev
    rw [runSlots_cons_fst, List.map_cons, List.mem_cons, not_or]
    by_cases hf : st.waitingFlags.getD j false = true
    · have hjlt : j < st.waitingFlags.length := getD_true_lt _ _ hf
      rw [fireSlot_fst, if_pos hf, ih]
      by_cases hij : i = j
      · subst hij
        rw [getD_set_self _ _ _ _ hjlt]
        simp
      · rw [getD_set_ne _ _ _ (fun h => hij h.symm)]
        tauto
    · have hf0 := bool_not_true hf
      rw [fireSlot_fst, if_neg hf, ih]
      by_cases hij : i = j
      · subst hij
        rw [hf0]
        simp
      · tauto

end Flatback

namespace Flatback

lemma fireSlot_snd_not_waiting (arity : Nat) (st : HFState) (index : Nat) (args : List JVal)
    (h : st.waitingFlags.getD index false = false) :
    (fireSlot arity st index args).2 = none := by
  rw [fireSlot_not_waiting arity st index args h]

lemma runSlots_results (arity : Nat) (events : List (Nat × List JVal)) :
    ∀ (st : HFState) (i : Nat), st.waitingFlags.length = st.results.length →
    (runSlots arity st events).1.results.getD i none
      = if st.waitingFlags.getD i false = true
        then ((events.find? (fun e => e.1 = i)).map (fun e => some e.2)).getD
               (st.results.getD i none)
        else st.results.getD i none := by
  induction events with
  | nil =>
    intro st i _
    by_cases hf : st.waitingFlags.getD i false = true
    · rw [if_pos hf]; rfl
    · rw [if_neg hf]; rfl
  | cons ev rest ih =>
    intro st i hlen
    obtain ⟨j, args⟩ := ev
    rw [runSlots_cons_fst, fireSlot_fst]
    by_cases hf : st.waitingFlags.getD j false = true
    · rw [if_pos hf]
      have hjlt : j < st.waitingFlags.length := getD_true_lt _ _ hf
      have hjlt2 : j < st.results.length := hlen ▸ hjlt
      have hlen2 : (st.waitingFlags.set j false).length = (st.results.set j (some args)).length := by
        rw [List.length_set, List.length_set]
        exact hlen
      rw [ih _ i hlen2]
      by_cases hij : i = j
      · subst hij
        rw [getD_set_self st.waitingFlags i false false hjlt]
        rw [if_neg (by simp), if_pos hf]
        rw [getD_set_self st.results i (some args) none hjlt2]
        rw [List.find?_cons_of_pos _ (by simp)]
        rfl
      · rw [getD_set_ne st.waitingFlags _ _ (fun h => hij h.symm)]
        rw [getD_set_ne st.results _ _ (fun h => hij h.symm)]
        rw [List.find?_cons_of_neg _ (by simp only [decide_eq_true_eq]; exact fun h => hij h.symm)]
    · rw [if_neg hf]
      rw [ih st i hlen]
      by_cases hij : i = j
      · subst hij
        rw [if_neg hf, if_neg hf]
      · rw [List.find?_cons_of_neg _ (by simp only [decide_eq_true_eq]; exact fun h => hij h.symm)]

lemma runSlots_frozen (arity : Nat) (events : List (Nat × List JVal)) :
    ∀ st : HFState, st.waitingFlags.count true = 0 →
    (runSlots arity st events).1 = st ∧ (runSlots arity st events).2 = [] := by
  induction events with
  | nil => intro st _; exact ⟨rfl, rfl⟩
  | cons ev rest ih =>
    intro st h
    obtain ⟨j, args⟩ := ev
    have hnotmem : true ∉ st.waitingFlags := by rwa [← List.count_eq_zero]
    have hj : st.waitingFlags.getD j false = false := by
      rcases getD_mem_or_default st.waitingFlags j false with hmem | hdef
      · cases hb : st.waitingFlags.getD j false
        · rfl
        · rw [hb] at hmem; exact absurd hmem hnotmem
      · exact hdef
    rw [runSlots_cons_fst, runSlots_cons_snd, fireSlot_fst,
        if_neg (by rw [hj]; exact Bool.false_ne_true),
        fireSlot_snd_not_waiting arity st j args hj]
    have hih := ih st h
    exact ⟨hih.1, by rw [hih.2]; rfl⟩

lemma runSlots_spec (arity : Nat) (events : List (Nat × List JVal)) :
    ∀ st : HFState, st.waitingCount = st.waitingFlags.count true →
    ((runSlots arity st events).1.waitingCount
       = (runSlots arity st events).1.waitingFlags.count true) ∧
    ((runSlots arity st events).2
       = if st.waitingCount ≠ 0 ∧ (runSlots arity st events).1.waitingCount = 0
         then [emitAggregate arity (runSlots arity st events).1.results]
         else []) := by
  induction events with
  | nil =>
    intro st hinv
    exact ⟨hinv, by rw [if_neg (fun hc => hc.1 hc.2)]; rfl⟩
  | cons ev rest ih =>
    intro st hinv
    obtain ⟨j, args⟩ := ev
    by_cases hf : st.waitingFlags.getD j false = true
    · have hjlt := getD_true_lt _ _ hf
      have hcount := count_true_set_false st.waitingFlags j hf
      have htrue : true ∈ st.waitingFlags := by
        rcases getD_mem_or_default st.waitingFlags j false with hmem | hdef
        · rwa [hf] at hmem
        · rw [hdef] at hf; exact Bool.noConfusion hf
      have hwcpos : st.waitingCount ≠ 0 := by
        have := List.count_pos_iff.mpr htrue
        omega
      have hinv1 : (HFState.mk (st.waitingFlags.set j false) (st.results.set j (some args))
          (st.waitingCount - 1)).waitingCount
            = (st.waitingFlags.set j false).count true := by
        show st.waitingCount - 1 = (st.waitingFlags.set j false).count true
        omega
      by_cases hc : st.waitingCount - 1 = 0
      · have hsnd : (fireSlot arity st j args).2
            = some (emitAggregate arity (st.results.set j (some args))) := by
          unfold fireSlot
          rw [if_pos hf, if_pos hc]
        have hfz := runSlots_frozen arity rest
          ⟨st.waitingFlags.set j false, st.results.set j (some args), st.waitingCount - 1⟩
          (by rw [← hinv1]; exact hc)
        rw [runSlots_cons_fst, runSlots_cons_snd, fireSlot_fst, if_pos hf, hsnd,
            hfz.1, hfz.2]
        refine ⟨hinv1, ?_⟩
        rw [if_pos ⟨hwcpos, hc⟩]
        rfl
      · have hsnd : (fireSlot arity st j args).2 = none := by
          unfold fireSlot
          rw [if_pos hf, if_neg hc]
        rw [runSlots_cons_fst, runSlots_cons_snd, fireSlot_fst, if_pos hf, hsnd]
        have hih := ih ⟨st.waitingFlags.set j false, st.results.set j (some args),
          st.waitingCount - 1⟩ hinv1
        refine ⟨hih.1, ?_⟩
        rw [hih.2]
        simp only [Option.toList_none, List.nil_append]
        by_cases hfin : (runSlots arity
            ⟨st.waitingFlags.set j false, st.results.set j (some args),
             st.waitingCount - 1⟩ rest).1.waitingCount = 0
        · rw [if_pos ⟨hc, hfin⟩, if_pos ⟨hwcpos, hfin⟩]
        · rw [if_neg (fun hx => hfin hx.2), if_neg (fun hx => hfin hx.2)]
    · have hf0 := bool_not_true hf
      rw [runSlots_cons_fst, runSlots_cons_snd, fireSlot_fst, if_neg hf,
          fireSlot_snd_not_waiting arity st j args hf0]
      have hih := ih st hinv
      refine ⟨hih.1, ?_⟩
      rw [hih.2]
      rfl

end Flatback

namespace Flatback

lemma getD_eq_getElem {α : Type} (l : List α) (i : Nat) (d : α) (h : i < l.length) :
    l.getD i d = l[i] := by
  rw [List.getD_eq_getElem?_getD, List.getElem?_eq_getElem h]
  rfl

lemma count_true_zero_iff (l : List Bool) :
    l.count true = 0 ↔ ∀ i, l.getD i false = false := by
  rw [List.count_eq_zero]
  constructor
  · intro h i
    rcases getD_mem_or_default l i false with hmem | hdef
    · cases hb : l.getD i false
      · rfl
      · rw [hb] at hmem; exact absurd hmem h
    · exact hdef
  · intro h hmem
    rcases List.mem_iff_getElem.mp hmem with ⟨i, hi, hgi⟩
    have hx := h i
    rw [List.getD_eq_getElem?_getD, List.getElem?_eq_getElem hi, hgi] at hx
    simp at hx

lemma initHF_inv (arity : Nat) :
    (initHF arity).waitingCount = (initHF arity).waitingFlags.count true := by
  show arity + 1 = (List.replicate (arity + 1) true).count true
  rw [List.count_replicate_self]

lemma initHF_flag (arity i : Nat) :
    (initHF arity).waitingFlags.getD i false = true ↔ i < arity + 1 := by
  show (List.replicate (arity + 1) true).getD i false = true ↔ i < arity + 1
  rw [List.getD_eq_getElem?_getD, List.getElem?_replicate]
  by_cases h : i < arity + 1 <;> simp [h]

lemma runSlots_coverage_iff (arity : Nat) (events : List (Nat × List JVal)) :
    (runSlots arity (initHF arity) events).1.waitingCount = 0
      ↔ ∀ i, i < arity + 1 → i ∈ events.map Prod.fst := by
  have hspec := runSlots_spec arity events (initHF arity) (initHF_inv arity)
  rw [hspec.1, count_true_zero_iff]
  constructor
  · intro h i hi
    by_contra hmem
    have hflag : (runSlots arity (initHF arity) events).1.waitingFlags.getD i false = true :=
      (runSlots_flag arity events (initHF arity) i).mpr ⟨(initHF_flag arity i).mpr hi, hmem⟩
    rw [h i] at hflag
    exact Bool.noConfusion hflag
  · intro h i
    cases hb : (runSlots arity (initHF arity) events).1.waitingFlags.getD i false
    · rfl
    · obtain ⟨hinit, hnot⟩ := (runSlots_flag arity events (initHF arity) i).mp hb
      exact absurd (h i ((initHF_flag arity i).mp hinit)) hnot

lemma runSlots_all_fired_emission (arity : Nat) (events : List (Nat × List JVal))
    (hcov : ∀ i, i < arity + 1 → i ∈ events.map Prod.fst) :
    (runSlots arity (initHF arity) events).2
      = [emitAggregate arity (runSlots arity (initHF arity) events).1.results] := by
  have hspec := runSlots_spec arity events (initHF arity) (initHF_inv arity)
  rw [hspec.2, if_pos ⟨Nat.succ_ne_zero arity, (runSlots_coverage_iff arity events).mpr hcov⟩]

/-- Claim C3: with `arity + 1` completion slots allocated (the declared
callbacks plus slot 0 for the task body having returned), no aggregate
result is emitted over any sequence of slot invocations unless every slot
has fired, and when every slot has fired — whichever slot happens to fire
last — exactly one aggregate result is emitted. -/
theorem task_emits_once_when_all_fired (arity : Nat) (hN : 1 ≤ arity)
    (events : List (Nat × List JVal)) :
    (runSlots arity (initHF arity) events).2.length
      = if ∀ i, i < arity + 1 → i ∈ events.map Prod.fst then 1 else 0 := by
  have hspec := runSlots_spec arity events (initHF arity) (initHF_inv arity)
  by_cases hcov : ∀ i, i < arity + 1 → i ∈ events.map Prod.fst
  · rw [if_pos hcov, runSlots_all_fired_emission arity events hcov]
    rfl
  · rw [if_neg hcov, hspec.2,
        if_neg (fun hx => hcov ((runSlots_coverage_iff arity events).mp hx.2))]
    rfl

/-- Closed instance of `task_emits_once_when_all_fired`: one callback slot
plus slot 0, both fired, one emission. -/
theorem task_emits_once_when_all_fired_witness :
    (runSlots 1 (initHF 1) [(1, [JVal.num 5]), (0, [])]).2.length
      = if ∀ i, i < 2 → i ∈ ([(1, [JVal.num 5]), (0, [])].map Prod.fst) then 1 else 0 :=
  task_emits_once_when_all_fired 1 (Nat.le_refl 1) [(1, [JVal.num 5]), (0, [])]

end Flatback

namespace Flatback

lemma runSlots_append_fst (arity : Nat) (a b : List (Nat × List JVal)) : ∀ st : HFState,
    (runSlots arity st (a ++ b)).1 = (runSlots arity (runSlots arity st a).1 b).1 := by
  induction a with
  | nil => intro st; rfl
  | cons ev rest ih =>
    intro st
    obtain ⟨j, args⟩ := ev
    rw [List.cons_append, runSlots_cons_fst, ih, runSlots_cons_fst]

lemma runSlots_append_snd (arity : Nat) (a b : List (Nat × List JVal)) : ∀ st : HFState,
    (runSlots arity st (a ++ b)).2
      = (runSlots arity st a).2 ++ (runSlots arity (runSlots arity st a).1 b).2 := by
  induction a with
  | nil => intro st; rfl
  | cons ev rest ih =>
    intro st
    obtain ⟨j, args⟩ := ev
    rw [List.cons_append, runSlots_cons_snd, ih, runSlots_cons_snd, runSlots_cons_fst,
        List.append_assoc]

/-- Claim C2: a completion slot that has already fired is inert: invoking
it again returns the state unchanged and emits nothing, and — run-level —
inserting a repeated invocation of an already-fired slot anywhere into the
event sequence leaves the whole outcome of the aggregator (captured
arguments, emitted aggregate results, final state) exactly as it was. -/
theorem slot_refire_noop :
    (∀ (arity : Nat) (st : HFState) (index : Nat) (args : List JVal),
        st.waitingFlags.getD index false = false →
        fireSlot arity st index args = (st, none)) ∧
    (∀ (arity : Nat) (xs : List (Nat × List JVal)) (i : Nat) (args : List JVal)
        (ys : List (Nat × List JVal)), i ∈ xs.map Prod.fst →
        runSlots arity (initHF arity) (xs ++ (i, args) :: ys)
          = runSlots arity (initHF arity) (xs ++ ys)) := by
  refine ⟨fireSlot_not_waiting, ?_⟩
  intro arity xs i args ys hmem
  have hflag : (runSlots arity (initHF arity) xs).1.waitingFlags.getD i false = false := by
    cases hb : (runSlots arity (initHF arity) xs).1.waitingFlags.getD i false
    · rfl
    · obtain ⟨-, hnot⟩ := (runSlots_flag arity xs (initHF arity) i).mp hb
      exact absurd hmem hnot
  have hfire := fireSlot_not_waiting arity (runSlots arity (initHF arity) xs).1 i args hflag
  have h1 : (runSlots arity (initHF arity) (xs ++ (i, args) :: ys)).1
      = (runSlots arity (initHF arity) (xs ++ ys)).1 := by
    rw [runSlots_append_fst, runSlots_append_fst, runSlots_cons_fst, hfire]
  have h2 : (runSlots arity (initHF arity) (xs ++ (i, args) :: ys)).2
      = (runSlots arity (initHF arity) (xs ++ ys)).2 := by
    rw [runSlots_append_snd, runSlots_append_snd, runSlots_cons_snd, hfire]
    rfl
  rw [Prod.ext_iff]
  exact ⟨h1, h2⟩

/-- Closed instance of `slot_refire_noop`: the repeated call of slot 1 is
discarded. -/
theorem slot_refire_noop_witness :
    runSlots 1 (initHF 1) ([(1, [JVal.num 1])] ++ (1, [JVal.num 2]) :: [(0, [])])
      = runSlots 1 (initHF 1) ([(1, [JVal.num 1])] ++ [(0, [])]) :=
  slot_refire_noop.2 1 [(1, [JVal.num 1])] 1 [JVal.num 2] [(0, [])] (by simp)

/-- Claim C8: when a task of declared arity at least 1 throws
synchronously, the failure is reported at once with the thrown error, slot
0 is never fired, and no aggregate result is ever emitted for that
suspension, even though some callback slots may have fired before the
throw and more may fire afterwards. -/
theorem task_sync_throw_reports_failure (arity : Nat) (hN : 1 ≤ arity)
    (t : TaskBehavior) (e : JVal) (hthrow : t.outcome = .error e)
    (hidx : ∀ ev ∈ t.syncEvents ++ t.asyncEvents, 1 ≤ ev.1) :
    0 ∉ (taskEvents t).map Prod.fst ∧ handleFunction arity t = ([], some e) := by
  have hevents : taskEvents t = t.syncEvents ++ t.asyncEvents := by
    unfold taskEvents
    rw [hthrow]
    simp
  have h0 : 0 ∉ (taskEvents t).map Prod.fst := by
    rw [hevents]
    intro hmem
    rcases List.mem_map.mp hmem with ⟨ev, hev, hfst⟩
    have := hidx ev hev
    omega
  refine ⟨h0, ?_⟩
  have hflag0 : (runSlots arity (initHF arity) (taskEvents t)).1.waitingFlags.getD 0 false
      = true :=
    (runSlots_flag arity (taskEvents t) (initHF arity) 0).mpr
      ⟨(initHF_flag arity 0).mpr (Nat.succ_pos arity), h0⟩
  have hne : (runSlots arity (initHF arity) (taskEvents t)).1.waitingCount ≠ 0 := by
    intro h0c
    have hspec := runSlots_spec arity (taskEvents t) (initHF arity) (initHF_inv arity)
    have hz := (count_true_zero_iff _).mp (hspec.1 ▸ h0c) 0
    rw [hflag0] at hz
    exact Bool.noConfusion hz
  have hsnd : (runSlots arity (initHF arity) (taskEvents t)).2 = [] := by
    have hspec := runSlots_spec arity (taskEvents t) (initHF arity) (initHF_inv arity)
    rw [hspec.2, if_neg (fun hx => hne hx.2)]
  unfold handleFunction
  rw [hthrow, hsnd]

/-- Closed instance of `task_sync_throw_reports_failure`: a two-callback
task fires callback 1 and then throws. -/
theorem task_sync_throw_reports_failure_witness :
    0 ∉ (taskEvents ⟨[(1, [JVal.num 1])], .error (JVal.str "boom"), []⟩).map Prod.fst ∧
    handleFunction 2 ⟨[(1, [JVal.num 1])], .error (JVal.str "boom"), []⟩
      = ([], some (JVal.str "boom")) :=
  task_sync_throw_reports_failure 2 (by omega)
    ⟨[(1, [JVal.num 1])], .error (JVal.str "boom"), []⟩ (JVal.str "boom") rfl
    (by simp)

end Flatback

namespace Flatback

lemma replicate_none_getD (n i : Nat) :
    (List.replicate n (none : Option (List JVal))).getD i none = none := by
  rw [List.getD_eq_getElem?_getD, List.getElem?_replicate]
  by_cases h : i < n <;> simp [h]

lemma initHF_len_eq (arity : Nat) :
    (initHF arity).waitingFlags.length = (initHF arity).results.length := by
  show (List.replicate (arity + 1) true).length
      = (List.replicate (arity + 1) (none : Option (List JVal))).length
  rw [List.length_replicate, List.length_replicate]

lemma taskEvents_ok (t : TaskBehavior) (v : JVal) (hret : t.outcome = .ok v) :
    taskEvents t = (t.syncEvents ++ [(0, [v])]) ++ t.asyncEvents := by
  unfold taskEvents
  rw [hret]

lemma task_coverage (N : Nat) (t : TaskBehavior) (v : JVal) (hret : t.outcome = .ok v)
    (hcov : ∀ i, i < N + 1 → 1 ≤ i → i ∈ (t.syncEvents ++ t.asyncEvents).map Prod.fst) :
    ∀ i, i < N + 1 → i ∈ (taskEvents t).map Prod.fst := by
  intro i hi
  rw [taskEvents_ok t v hret]
  rcases Nat.eq_zero_or_pos i with h0 | hpos
  · subst h0
    simp
  · have hmem := hcov i hi hpos
    simp only [List.map_append, List.mem_append] at hmem ⊢
    tauto

lemma task_results (N : Nat) (t : TaskBehavior) (v : JVal) (hret : t.outcome = .ok v)
    (hcov : ∀ i, i < N + 1 → 1 ≤ i → i ∈ (t.syncEvents ++ t.asyncEvents).map Prod.fst) :
    ∀ i, 1 ≤ i → i < N + 1 →
    (runSlots N (initHF N) (taskEvents t)).1.results.getD i none
      = some (firstCallArgs t i) := by
  intro i h1 hi
  have hres := runSlots_results N (taskEvents t) (initHF N) i (initHF_len_eq N)
  rw [if_pos ((initHF_flag N i).mpr hi)] at hres
  have hfind : (taskEvents t).find? (fun e => e.1 = i)
      = (t.syncEvents ++ t.asyncEvents).find? (fun e => e.1 = i) := by
    rw [taskEvents_ok t v hret, List.find?_append, List.find?_append, List.find?_append]
    have hmid : ([(0, [v])].find? (fun e => e.1 = i)) = none := by
      rw [List.find?_cons_of_neg _ (by simp; omega)]
      rfl
    rw [hmid, Option.or_none]
  rcases List.mem_map.mp (hcov i hi h1) with ⟨ev, hev, hfst⟩
  have hsome : ((t.syncEvents ++ t.asyncEvents).find? (fun e => e.1 = i)).isSome :=
    List.find?_isSome.mpr ⟨ev, hev, by simp [hfst]⟩
  rcases Option.isSome_iff_exists.mp hsome with ⟨ev2, hev2⟩
  rw [hfind, hev2] at hres
  have hinit : (initHF N).results.getD i none = none := replicate_none_getD (N + 1) i
  rw [hinit] at hres
  rw [hres]
  unfold firstCallArgs
  rw [hev2]
  rfl

lemma task_results_length (N : Nat) (t : TaskBehavior) :
    (runSlots N (initHF N) (taskEvents t)).1.results.length = N + 1 := by
  rw [(runSlots_lengths N (taskEvents t) (initHF N)).2]
  show (List.replicate (N + 1) (none : Option (List JVal))).length = N + 1
  rw [List.length_replicate]

/-- Claim C1: the aggregate success result of a task that returns without
throwing and whose completion slots all eventually fire is shaped by the
declared arity: for arity 0 (handled by the immediate branch of
`getNextResult`) it is the empty sequence; for arity 1 it is the flat
sequence of the single callback's first-invocation arguments; for arity at
least 2 it is one element per declared callback, each the argument
sequence of that callback's first invocation. -/
theorem task_aggregate_shape (N : Nat) (t : TaskBehavior) (v : JVal)
    (hret : t.outcome = .ok v)
    (hidx : ∀ ev ∈ t.syncEvents ++ t.asyncEvents, 1 ≤ ev.1)
    (hcov : ∀ i, i < N + 1 → 1 ≤ i → i ∈ (t.syncEvents ++ t.asyncEvents).map Prod.fst) :
    (getNextResult (.fn 0) = .callNoArgs ∧ ∀ w, runZeroArityTask (.ok w) = .ok []) ∧
    (N = 1 → (handleFunction N t).1 = [.flat (firstCallArgs t 1)]) ∧
    (2 ≤ N → (handleFunction N t).1
        = [.nested ((List.range N).map (fun k => firstCallArgs t (k + 1)))]) := by
  have hemit := runSlots_all_fired_emission N (taskEvents t) (task_coverage N t v hret hcov)
  have hres := task_results N t v hret hcov
  refine ⟨⟨rfl, fun w => rfl⟩, ?_, ?_⟩
  · intro h1
    subst h1
    show (runSlots 1 (initHF 1) (taskEvents t)).2 = _
    rw [hemit]
    unfold emitAggregate
    rw [if_pos rfl, hres 1 (Nat.le_refl 1) (by omega)]
    rfl
  · intro h2
    show (runSlots N (initHF N) (taskEvents t)).2 = _
    rw [hemit]
    unfold emitAggregate
    rw [if_neg (by omega)]
    have hlen := task_results_length N t
    have hlist : ((runSlots N (initHF N) (taskEvents t)).1.results.drop 1).map
          (fun o => o.getD [])
        = (List.range N).map (fun k => firstCallArgs t (k + 1)) := by
      apply List.ext_getElem
      · rw [List.length_map, List.length_drop, hlen, List.length_map, List.length_range]
        omega
      · intro k hk1 hk2
        rw [List.getElem_map, List.getElem_map, List.getElem_range]
        have hklt : k < N := by
          rw [List.length_map, List.length_drop, hlen] at hk1
          omega
        have hlt : k < ((runSlots N (initHF N) (taskEvents t)).1.results.drop 1).length := by
          rw [List.length_drop, hlen]
          omega
        rw [← getD_eq_getElem _ k none hlt, List.getD_eq_getElem?_getD, List.getElem?_drop,
            ← List.getD_eq_getElem?_getD, Nat.add_comm 1 k,
            hres (k + 1) (by omega) (by omega)]
        rfl
    rw [hlist]

/-- Closed instance of `task_aggregate_shape`: a two-callback task, each
callback fired once. -/
theorem task_aggregate_shape_witness :
    (getNextResult (.fn 0) = .callNoArgs ∧ ∀ w, runZeroArityTask (.ok w) = .ok []) ∧
    (2 = 1 → (handleFunction 2 ⟨[(1, [JVal.num 1]), (2, [JVal.num 2, JVal.num 3])],
        .ok .undefinedV, []⟩).1
      = [.flat (firstCallArgs ⟨[(1, [JVal.num 1]), (2, [JVal.num 2, JVal.num 3])],
          .ok .undefinedV, []⟩ 1)]) ∧
    (2 ≤ 2 → (handleFunction 2 ⟨[(1, [JVal.num 1]), (2, [JVal.num 2, JVal.num 3])],
        .ok .undefinedV, []⟩).1
      = [.nested ((List.range 2).map
          (fun k => firstCallArgs ⟨[(1, [JVal.num 1]), (2, [JVal.num 2, JVal.num 3])],
            .ok .undefinedV, []⟩ (k + 1)))]) :=
  task_aggregate_shape 2
    ⟨[(1, [JVal.num 1]), (2, [JVal.num 2, JVal.num 3])], .ok .undefinedV, []⟩ .undefinedV rfl
    (by simp) (by decide)

end Flatback

namespace Flatback

/-! ## Fan-out aggregator lemmas for `handleArray` -/

lemma list_eq_of_getD_eq {α : Type} (l1 l2 : List (Option α)) (hlen : l1.length = l2.length)
    (h : ∀ i, l1.getD i none = l2.getD i none) : l1 = l2 := by
  apply List.ext_getElem hlen
  intro i h1 h2
  have hx := h i
  rw [getD_eq_getElem _ _ _ h1, getD_eq_getElem _ _ _ h2] at hx
  exact hx

lemma countSyncOk_nonneg (l : List ElemOutcome) : 0 ≤ countSyncOk l := by
  unfold countSyncOk
  exact Int.natCast_nonneg _

lemma countSyncOk_nil : countSyncOk [] = 0 := by
  unfold countSyncOk
  rfl

lemma countSyncOk_cons (e : ElemOutcome) (rest : List ElemOutcome) :
    countSyncOk (e :: rest) = countSyncOk rest + (if isSyncOkB e = true then 1 else 0) := by
  unfold countSyncOk
  rw [List.countP_cons]
  by_cases h : isSyncOkB e = true
  · rw [if_pos h, if_pos h]
    push_cast
    ring
  · rw [if_neg h, if_neg h]
    push_cast
    ring

lemma countSyncOk_eq_zero {l : List ElemOutcome} (h : countSyncOk l = 0) :
    ∀ x ∈ l, isSyncOkB x = false := by
  unfold countSyncOk at h
  have hn : l.countP isSyncOkB = 0 := by exact_mod_cast h
  intro x hx
  exact bool_not_true (List.countP_eq_zero.mp hn x hx)

lemma haDeliver_frozen (st : HAState) (index : Nat) (res : Except JVal JVal)
    (h : st.firstErr.isSome) : haDeliver st index res = st := by
  rcases hfe : st.firstErr with _ | e0
  · rw [hfe] at h
    exact absurd h (by simp)
  · unfold haDeliver
    rw [hfe]

lemma haDeliver_err (st : HAState) (index : Nat) (e : JVal) (hfe : st.firstErr = none) :
    haDeliver st index (.error e)
      = { st with firstErr := some e, emissions := st.emissions ++ [Except.error e] } := by
  unfold haDeliver
  rw [hfe]

lemma haDeliver_ok (st : HAState) (index : Nat) (r : JVal) (hfe : st.firstErr = none) :
    haDeliver st index (.ok r)
      = if st.waitingCount - 1 = 0 then
          { st with results := st.results.set index (some r),
                    waitingCount := st.waitingCount - 1,
                    emissions := st.emissions
                      ++ [Except.ok ((st.results.set index (some r)).map
                            (fun o => o.getD JVal.undefinedV))] }
        else
          { st with results := st.results.set index (some r),
                    waitingCount := st.waitingCount - 1 } := by
  unfold haDeliver
  rw [hfe]

lemma haSyncStep_frozen (st : HAState) (index : Nat) (e : ElemOutcome)
    (h : st.firstErr.isSome) : haSyncStep st index e = st := by
  unfold haSyncStep
  rw [if_pos h]

lemma haSyncStep_none (st : HAState) (k : Nat) (e : ElemOutcome) (hfe : st.firstErr = none) :
    haSyncStep st k e
      = match e with
        | .sync res => haDeliver { st with initiated := st.initiated.set k true } k res
        | .async _ => { st with initiated := st.initiated.set k true } := by
  unfold haSyncStep
  rw [if_neg (by rw [hfe]; simp)]

lemma haSync_frozen (rest : List ElemOutcome) : ∀ (k : Nat) (st : HAState),
    st.firstErr.isSome → haSync rest k st = st := by
  induction rest with
  | nil => intro k st _; rfl
  | cons e r ih =>
    intro k st h
    show haSync r (k + 1) (haSyncStep st k e) = st
    rw [haSyncStep_frozen st k e h, ih (k + 1) st h]

lemma haAsyncStep_frozen (elems : List ElemOutcome) (st : HAState) (index : Nat)
    (h : st.firstErr.isSome) : haAsyncStep elems st index = st := by
  unfold haAsyncStep
  by_cases hi : st.initiated.getD index false = true
  · rw [if_pos hi]
    cases elemAt elems index with
    | sync res => rfl
    | async res => exact haDeliver_frozen st index res h
  · rw [if_neg hi]

lemma ha_foldl_frozen (elems : List ElemOutcome) (sched : List Nat) : ∀ st : HAState,
    st.firstErr.isSome → sched.foldl (haAsyncStep elems) st = st := by
  induction sched with
  | nil => intro st _; rfl
  | cons q r ih =>
    intro st h
    rw [List.foldl_cons, haAsyncStep_frozen elems st q h, ih st h]

end Flatback

namespace Flatback

lemma haSyncStep_async (st : HAState) (k : Nat) (res : Except JVal JVal)
    (hfe : st.firstErr = none) :
    haSyncStep st k (.async res) = { st with initiated := st.initiated.set k true } := by
  rw [haSyncStep_none st k _ hfe]

lemma haSyncStep_sync (st : HAState) (k : Nat) (res : Except JVal JVal)
    (hfe : st.firstErr = none) :
    haSyncStep st k (.sync res)
      = haDeliver { st with initiated := st.initiated.set k true } k res := by
  rw [haSyncStep_none st k _ hfe]

lemma haSync_ok_spec (elems : List ElemOutcome) :
    ∀ (rest : List ElemOutcome) (k : Nat) (st : HAState) (m : Int),
    (∀ j, j < rest.length → rest.getD j (.sync (.ok .undefinedV)) = elemAt elems (k + j)) →
    (∀ e ∈ rest, isSyncErrB e = false) →
    st.firstErr = none →
    st.results.length = st.initiated.length →
    k + rest.length ≤ st.initiated.length →
    st.waitingCount = countSyncOk rest + m →
    0 ≤ m →
    (haSync rest k st).firstErr = none ∧
    (haSync rest k st).results.length = st.results.length ∧
    (haSync rest k st).initiated.length = st.initiated.length ∧
    (∀ i, ((haSync rest k st).initiated.getD i false = true ↔
        (st.initiated.getD i false = true ∨ (k ≤ i ∧ i < k + rest.length)))) ∧
    (∀ i, (haSync rest k st).results.getD i none
        = if k ≤ i ∧ i < k + rest.length ∧ isSyncOkB (elemAt elems i) = true
          then some (elemValue (elemAt elems i))
          else st.results.getD i none) ∧
    (haSync rest k st).waitingCount = m ∧
    (haSync rest k st).emissions
      = st.emissions
        ++ (if m = 0 ∧ 1 ≤ countSyncOk rest
            then [Except.ok ((haSync rest k st).results.map (fun o => o.getD JVal.undefinedV))]
            else []) := by
  intro rest
  induction rest with
  | nil =>
    intro k st m hagree hnoerr hfe hlen hbound hwc hm
    have hwc0 : st.waitingCount = m := by rw [hwc, countSyncOk_nil]; ring
    refine ⟨hfe, rfl, rfl, ?_, ?_, hwc0, ?_⟩
    · intro i
      simp only [List.length_nil]
      constructor
      · intro h; exact Or.inl h
      · rintro (h | ⟨h1, h2⟩)
        · exact h
        · omega
    · intro i
      have hno : ¬ (k ≤ i ∧ i < k + ([] : List ElemOutcome).length
          ∧ isSyncOkB (elemAt elems i) = true) := by
        simp only [List.length_nil]
        rintro ⟨h1, h2, -⟩
        omega
      rw [if_neg hno]
      rfl
    · rw [countSyncOk_nil]
      have hno : ¬ (m = 0 ∧ (1 : Int) ≤ 0) := by rintro ⟨-, h⟩; omega
      rw [if_neg hno, List.append_nil]
      rfl
  | cons e r ih =>
    intro k st m hagree hnoerr hfe hlen hbound hwc hm
    have hek : elemAt elems k = e := by
      have h0 := hagree 0 (by simp)
      simpa using h0.symm
    have hagree' : ∀ j, j < r.length →
        r.getD j (.sync (.ok .undefinedV)) = elemAt elems (k + 1 + j) := by
      intro j hj
      have h1 := hagree (j + 1) (by simpa using Nat.succ_lt_succ hj)
      rw [List.getD_cons_succ] at h1
      have harith : k + (j + 1) = k + 1 + j := by omega
      rw [harith] at h1
      exact h1
    have hnoerr' : ∀ x ∈ r, isSyncErrB x = false :=
      fun x hx => hnoerr x (List.mem_cons_of_mem e hx)
    have hboundc : k + r.length + 1 ≤ st.initiated.length := by
      simp only [List.length_cons] at hbound
      omega
    have hkL : k < st.initiated.length := by omega
    have hkR : k < st.results.length := by rw [hlen]; exact hkL
    have hstep : haSync (e :: r) k st = haSync r (k + 1) (haSyncStep st k e) := rfl
    rw [hstep]
    cases e with
    | async res =>
      rw [haSyncStep_async st k res hfe]
      have hce : countSyncOk (ElemOutcome.async res :: r) = countSyncOk r := by
        rw [countSyncOk_cons]
        simp [isSyncOkB]
      have hwc' : st.waitingCount = countSyncOk r + m := by rw [hwc, hce]
      have hIH := ih (k + 1) { st with initiated := st.initiated.set k true } m hagree'
        hnoerr' hfe
        (by show st.results.length = (st.initiated.set k true).length
            rw [List.length_set]; exact hlen)
        (by show k + 1 + r.length ≤ (st.initiated.set k true).length
            rw [List.length_set]; omega)
        hwc' hm
      obtain ⟨c1, c2, c3, c4, c5, c6, c7⟩ := hIH
      refine ⟨c1, c2, ?_, ?_, ?_, c6, ?_⟩
      · rw [c3]
        show (st.initiated.set k true).length = st.initiated.length
        exact List.length_set ..
      · intro i
        rw [c4 i]
        simp only [List.length_cons]
        by_cases hik : i = k
        · subst hik
          rw [getD_set_self _ _ _ _ hkL]
          constructor
          · intro _; exact Or.inr ⟨Nat.le_refl i, by omega⟩
          · intro _; exact Or.inl rfl
        · rw [getD_set_ne _ _ _ (fun h => hik h.symm)]
          constructor
          · rintro (h | ⟨h1, h2⟩)
            · exact Or.inl h
            · exact Or.inr ⟨by omega, by omega⟩
          · rintro (h | ⟨h1, h2⟩)
            · exact Or.inl h
            · exact Or.inr ⟨by omega, by omega⟩
      · intro i
        rw [c5 i]
        simp only [List.length_cons]
        by_cases hik : i = k
        · subst hik
          have hnotok : isSyncOkB (elemAt elems i) = false := by
            rw [hek]
            rfl
          rw [if_neg (by rintro ⟨h1, -, -⟩; omega),
              if_neg (by rintro ⟨-, -, h3⟩; rw [hnotok] at h3; exact Bool.noConfusion h3)]
        · by_cases hcond : k + 1 ≤ i ∧ i < k + 1 + r.length ∧ isSyncOkB (elemAt elems i) = true
        
          · rw [if_pos hcond, if_pos ⟨by omega, by omega, hcond.2.2⟩]
          · rw [if_neg hcond, if_neg (fun hx => hcond ⟨by omega, by omega, hx.2.2⟩)]
      · rw [c7, hce]
    | sync res =>
      cases res with
      | error e0 =>
        have hbad := hnoerr (.sync (.error e0)) (List.mem_cons_self _ _)
        simp [isSyncErrB] at hbad
      | ok r0 =>
        rw [haSyncStep_sync st k _ hfe,
            haDeliver_ok { st with initiated := st.initiated.set k true } k r0 hfe]
        have hce : countSyncOk (ElemOutcome.sync (.ok r0) :: r) = countSyncOk r + 1 := by
          rw [countSyncOk_cons]
          simp [isSyncOkB]
        have hwc1 : st.waitingCount - 1 = countSyncOk r + m := by rw [hwc, hce]; ring
        have hcnn := countSyncOk_nonneg r
        by_cases hc : st.waitingCount - 1 = 0
        · have hcs0 : countSyncOk r = 0 := by omega
          have hm0 : m = 0 := by omega
          rw [if_pos hc]
          have hIH := ih (k + 1)
            { st with
              initiated := st.initiated.set k true
              results := st.results.set k (some r0)
              waitingCount := st.waitingCount - 1
              emissions := st.emissions
                ++ [Except.ok ((st.results.set k (some r0)).map
                      (fun o => o.getD JVal.undefinedV))] } 0 hagree' hnoerr' hfe
            (by show (st.results.set k (some r0)).length = (st.initiated.set k true).length
                rw [List.length_set, List.length_set]; exact hlen)
            (by show k + 1 + r.length ≤ (st.initiated.set k true).length
                rw [List.length_set]; omega)
            (by show st.waitingCount - 1 = countSyncOk r + 0
                omega)
            (by omega)
          obtain ⟨c1, c2, c3, c4, c5, c6, c7⟩ := hIH
          have hnone : ∀ x ∈ r, isSyncOkB x = false := countSyncOk_eq_zero hcs0
          have hresfix : ∀ i, (haSync r (k + 1)
              { st with
                initiated := st.initiated.set k true
                results := st.results.set k (some r0)
                waitingCount := st.waitingCount - 1
                emissions := st.emissions
                  ++ [Except.ok ((st.results.set k (some r0)).map
                        (fun o => o.getD JVal.undefinedV))] }).results.getD i none
              = (st.results.set k (some r0)).getD i none := by
            intro i
            rw [c5 i]
            by_cases hcond : k + 1 ≤ i ∧ i < k + 1 + r.length
            · have hj := hagree' (i - (k + 1)) (by omega)
              have harith : k + 1 + (i - (k + 1)) = i := by omega
              rw [harith] at hj
              have hil : i - (k + 1) < r.length := by omega
              have hmem : r.getD (i - (k + 1)) (.sync (.ok .undefinedV)) ∈ r := by
                rw [List.getD_eq_getElem?_getD, List.getElem?_eq_getElem hil]
                exact List.getElem_mem hil
              have hnotok : isSyncOkB (elemAt elems i) = false := by
                rw [← hj]
                exact hnone _ hmem
              rw [if_neg (by rintro ⟨-, -, h3⟩; rw [hnotok] at h3; exact Bool.noConfusion h3)]
            · rw [if_neg (fun hx => hcond ⟨hx.1, hx.2.1⟩)]
          refine ⟨c1, ?_, ?_, ?_, ?_, ?_, ?_⟩
          · rw [c2]
            show (st.results.set k (some r0)).length = st.results.length
            exact List.length_set ..
          · rw [c3]
            show (st.initiated.set k true).length = st.initiated.length
            exact List.length_set ..
          · intro i
            rw [c4 i]
            simp only [List.length_cons]
            by_cases hik : i = k
            · subst hik
              rw [getD_set_self _ _ _ _ hkL]
              constructor
              · intro _; exact Or.inr ⟨Nat.le_refl i, by omega⟩
              · intro _; exact Or.inl rfl
            · rw [getD_set_ne _ _ _ (fun h => hik h.symm)]
              constructor
              · rintro (h | ⟨h1, h2⟩)
                · exact Or.inl h
                · exact Or.inr ⟨by omega, by omega⟩
              · rintro (h | ⟨h1, h2⟩)
                · exact Or.inl h
                · exact Or.inr ⟨by omega, by omega⟩
          · intro i
            rw [hresfix i]
            simp only [List.length_cons]
            by_cases hik : i = k
            · subst hik
              rw [getD_set_self _ _ _ _ hkR]
              rw [if_pos ⟨Nat.le_refl i, by omega, by rw [hek]; rfl⟩]
              rw [hek]
              rfl
            · rw [getD_set_ne _ _ _ (fun h => hik h.symm)]
              by_cases hcond : k ≤ i ∧ i < k + (r.length + 1) ∧ isSyncOkB (elemAt elems i) = true
              · exfalso
                have hj := hagree' (i - (k + 1)) (by omega)
                have harith : k + 1 + (i - (k + 1)) = i := by omega
                rw [harith] at hj
                have hil : i - (k + 1) < r.length := by omega
                have hmem : r.getD (i - (k + 1)) (.sync (.ok .undefinedV)) ∈ r := by
                  rw [List.getD_eq_getElem?_getD, List.getElem?_eq_getElem hil]
                  exact List.getElem_mem hil
                have hnotok := hnone _ hmem
                rw [hj] at hnotok
                rw [hnotok] at hcond
                exact Bool.noConfusion hcond.2.2
              · rw [if_neg hcond]
          · rw [c6, hm0]
          · rw [c7, hcs0]
            have hno : ¬ ((0 : Int) = 0 ∧ (1 : Int) ≤ 0) := by rintro ⟨-, h⟩; omega
            rw [if_neg hno, List.append_nil]
            have hmapeq : (haSync r (k + 1)
                { st with
                  initiated := st.initiated.set k true
                  results := st.results.set k (some r0)
                  waitingCount := st.waitingCount - 1
                  emissions := st.emissions
                    ++ [Except.ok ((st.results.set k (some r0)).map
                          (fun o => o.getD JVal.undefinedV))] }).results
                = st.results.set k (some r0) := by
              apply list_eq_of_getD_eq
              · rw [c2]
              · exact hresfix
            rw [if_pos ⟨hm0, by rw [hce, hcs0]; omega⟩, hmapeq]
        · rw [if_neg hc]
          have hIH := ih (k + 1)
            { st with
              initiated := st.initiated.set k true
              results := st.results.set k (some r0)
              waitingCount := st.waitingCount - 1 } m hagree' hnoerr' hfe
            (by show (st.results.set k (some r0)).length = (st.initiated.set k true).length
                rw [List.length_set, List.length_set]; exact hlen)
            (by show k + 1 + r.length ≤ (st.initiated.set k true).length
                rw [List.length_set]; omega)
            hwc1 hm
          obtain ⟨c1, c2, c3, c4, c5, c6, c7⟩ := hIH
          refine ⟨c1, ?_, ?_, ?_, ?_, c6, ?_⟩
          · rw [c2]
            show (st.results.set k (some r0)).length = st.results.length
            exact List.length_set ..
          · rw [c3]
            show (st.initiated.set k true).length = st.initiated.length
            exact List.length_set ..
          · intro i
            rw [c4 i]
            simp only [List.length_cons]
            by_cases hik : i = k
            · subst hik
              rw [getD_set_self _ _ _ _ hkL]
              constructor
              · intro _; exact Or.inr ⟨Nat.le_refl i, by omega⟩
              · intro _; exact Or.inl rfl
            · rw [getD_set_ne _ _ _ (fun h => hik h.symm)]
              constructor
              · rintro (h | ⟨h1, h2⟩)
                · exact Or.inl h
                · exact Or.inr ⟨by omega, by omega⟩
              · rintro (h | ⟨h1, h2⟩)
                · exact Or.inl h
                · exact Or.inr ⟨by omega, by omega⟩
          · intro i
            rw [c5 i]
            simp only [List.length_cons]
            by_cases hik : i = k
            · subst hik
              rw [if_neg (by rintro ⟨h1, -, -⟩; omega)]
              have : ({ st with
                        initiated := st.initiated.set i true
                        results := st.results.set i (some r0)
                        waitingCount := st.waitingCount - 1 } : HAState).results.getD i none
                  = (st.results.set i (some r0)).getD i none := rfl
              rw [this, getD_set_self _ _ _ _ hkR]
              rw [if_pos ⟨Nat.le_refl i, by omega, by rw [hek]; rfl⟩, hek]
              rfl
            · by_cases hcond : k + 1 ≤ i ∧ i < k + 1 + r.length
                  ∧ isSyncOkB (elemAt elems i) = true
              · rw [if_pos hcond, if_pos ⟨by omega, by omega, hcond.2.2⟩]
              · rw [if_neg hcond]
                have : ({ st with
                          initiated := st.initiated.set k true
                          results := st.results.set k (some r0)
                          waitingCount := st.waitingCount - 1 } : HAState).results.getD i none
                    = (st.results.set k (some r0)).getD i none := rfl
                rw [this, getD_set_ne _ _ _ (fun h => hik h.symm)]
                rw [if_neg (fun hx => hcond ⟨by omega, by omega, hx.2.2⟩)]
          · rw [c7]
            by_cases hm0 : m = 0
            · have hr1 : (1 : Int) ≤ countSyncOk r := by omega
              rw [if_pos ⟨hm0, hr1⟩, if_pos ⟨hm0, by rw [hce]; omega⟩]
            · rw [if_neg (fun hx => hm0 hx.1), if_neg (fun hx => hm0 hx.1)]

end Flatback

namespace Flatback

lemma ha_async_ok_spec (elems : List ElemOutcome) :
    ∀ (Q : List Nat) (st : HAState) (m : Int),
    Q.Nodup →
    (∀ i ∈ Q, isAsyncOkB (elemAt elems i) = true) →
    (∀ i ∈ Q, st.initiated.getD i false = true) →
    (∀ i ∈ Q, i < st.results.length) →
    st.firstErr = none →
    st.waitingCount = Q.length + m →
    0 ≤ m →
    (Q.foldl (haAsyncStep elems) st).firstErr = none ∧
    (Q.foldl (haAsyncStep elems) st).results.length = st.results.length ∧
    (Q.foldl (haAsyncStep elems) st).initiated = st.initiated ∧
    (∀ i, (Q.foldl (haAsyncStep elems) st).results.getD i none
        = if i ∈ Q then some (elemValue (elemAt elems i)) else st.results.getD i none) ∧
    (Q.foldl (haAsyncStep elems) st).waitingCount = m ∧
    (Q.foldl (haAsyncStep elems) st).emissions
      = st.emissions
        ++ (if m = 0 ∧ Q ≠ []
            then [Except.ok ((Q.foldl (haAsyncStep elems) st).results.map
                    (fun o => o.getD JVal.undefinedV))]
            else []) := by
  intro Q
  induction Q with
  | nil =>
    intro st m _ _ _ _ hfe hwc hm
    have hwc0 : st.waitingCount = m := by
      rw [hwc]
      simp
    refine ⟨hfe, rfl, rfl, ?_, hwc0, ?_⟩
    · intro i
      rw [if_neg (List.not_mem_nil i)]
      rfl
    · have hno : ¬ (m = 0 ∧ ([] : List Nat) ≠ []) := by rintro ⟨-, h⟩; exact h rfl
      rw [if_neg hno, List.append_nil]
      rfl
  | cons q R ih =>
    intro st m hnd hasync hinit hlen hfe hwc hm
    have hq_init : st.initiated.getD q false = true := hinit q (List.mem_cons_self _ _)
    have hq_async : isAsyncOkB (elemAt elems q) = true := hasync q (List.mem_cons_self _ _)
    obtain ⟨v, hv⟩ : ∃ v, elemAt elems q = .async (.ok v) := by
      cases helem : elemAt elems q with
      | sync res =>
        rw [helem] at hq_async
        simp [isAsyncOkB] at hq_async
      | async res =>
        cases res with
        | error e0 =>
          rw [helem] at hq_async
          simp [isAsyncOkB] at hq_async
        | ok v => exact ⟨v, rfl⟩
    have hstep : haAsyncStep elems st q = haDeliver st q (.ok v) := by
      unfold haAsyncStep
      rw [if_pos hq_init, hv]
    rw [List.foldl_cons, hstep, haDeliver_ok st q v hfe]
    have hqlen : q < st.results.length := hlen q (List.mem_cons_self _ _)
    have hwc1 : st.waitingCount - 1 = R.length + m := by
      rw [hwc]
      simp only [List.length_cons]
      push_cast
      ring
    obtain ⟨hqR, hndR⟩ := List.nodup_cons.mp hnd
    by_cases hc : st.waitingCount - 1 = 0
    · have hm0 : m = 0 := by omega
      have hR0 : R.length = 0 := by omega
      have hRnil : R = [] := List.length_eq_zero.mp hR0
      subst hRnil
      rw [if_pos hc]
      refine ⟨hfe, ?_, rfl, ?_, ?_, ?_⟩
      · show (st.results.set q (some v)).length = st.results.length
        exact List.length_set ..
      · intro i
        by_cases hiq : i = q
        · subst hiq
          rw [if_pos (List.mem_cons_self _ _)]
          show (st.results.set i (some v)).getD i none = some (elemValue (elemAt elems i))
          rw [getD_set_self _ _ _ _ hqlen, hv]
          rfl
        · rw [if_neg (by simp [hiq])]
          show (st.results.set q (some v)).getD i none = st.results.getD i none
          exact getD_set_ne _ _ _ (fun h => hiq h.symm)
      · show st.waitingCount - 1 = m
        omega
      · rw [if_pos ⟨hm0, List.cons_ne_nil q []⟩]
        rfl
    · rw [if_neg hc]
      have hIH := ih { st with results := st.results.set q (some v),
                               waitingCount := st.waitingCount - 1 } m hndR
        (fun i hi => hasync i (List.mem_cons_of_mem q hi))
        (fun i hi => hinit i (List.mem_cons_of_mem q hi))
        (by intro i hi
            show i < (st.results.set q (some v)).length
            rw [List.length_set]
            exact hlen i (List.mem_cons_of_mem q hi))
        hfe
        (by show st.waitingCount - 1 = R.length + m
            omega)
        hm
    
      obtain ⟨c1, c2, c3, c4, c5, c6⟩ := hIH
      refine ⟨c1, ?_, c3, ?_, c5, ?_⟩
      · rw [c2]
        show (st.results.set q (some v)).length = st.results.length
        exact List.length_set ..
      · intro i
        rw [c4 i]
        by_cases hiq : i = q
        · subst hiq
          rw [if_neg (fun h => hqR h), if_pos (List.mem_cons_self _ _)]
          show (st.results.set i (some v)).getD i none = some (elemValue (elemAt elems i))
          rw [getD_set_self _ _ _ _ hqlen, hv]
          rfl
        · by_cases hiR : i ∈ R
          · rw [if_pos hiR, if_pos (List.mem_cons_of_mem q hiR)]
          · rw [if_neg hiR, if_neg (by simp [hiq, hiR])]
            show (st.results.set q (some v)).getD i none = st.results.getD i none
            exact getD_set_ne _ _ _ (fun h => hiq h.symm)
      · rw [c6]
        by_cases hm0 : m = 0
        · have hRne : R ≠ [] := by
            intro hR
            rw [hR] at hwc1
            simp at hwc1
            omega
          rw [if_pos ⟨hm0, hRne⟩, if_pos ⟨hm0, List.cons_ne_nil q R⟩]
        · rw [if_neg (fun hx => hm0 hx.1), if_neg (fun hx => hm0 hx.1)]

end Flatback

namespace Flatback

lemma elemAt_oob (l : List ElemOutcome) (i : Nat) (h : l.length ≤ i) :
    elemAt l i = .sync (.ok .undefinedV) := by
  unfold elemAt
  rw [List.getD_eq_getElem?_getD, List.getElem?_eq_none (by omega)]
  rfl

lemma elemAt_lt_mem (l : List ElemOutcome) (i : Nat) (h : i < l.length) :
    elemAt l i ∈ l := by
  unfold elemAt
  rw [List.getD_eq_getElem?_getD, List.getElem?_eq_getElem h]
  exact List.getElem_mem h

lemma isAsyncB_lt (l : List ElemOutcome) (i : Nat) (h : isAsyncB (elemAt l i) = true) :
    i < l.length := by
  by_contra hge
  rw [elemAt_oob l i (by omega)] at h
  simp [isAsyncB] at h

lemma isAsyncOkB_isAsyncB {e : ElemOutcome} (h : isAsyncOkB e = true) : isAsyncB e = true := by
  cases e with
  | sync res => simp [isAsyncOkB] at h
  | async res => rfl

lemma isSyncOkB_of_not_err_not_async {e : ElemOutcome} (h1 : isSyncErrB e = false)
    (h2 : isAsyncB e = false) : isSyncOkB e = true := by
  cases e with
  | sync res =>
    cases res with
    | error e0 => simp [isSyncErrB] at h1
    | ok r0 => rfl
  | async res => simp [isAsyncB] at h2

lemma replicate_false_getD (n i : Nat) :
    (List.replicate n false).getD i false = false := by
  rw [List.getD_eq_getElem?_getD, List.getElem?_replicate]
  by_cases h : i < n <;> simp [h]

lemma replicate_getD_none {α : Type} (n i : Nat) :
    (List.replicate n (none : Option α)).getD i none = none := by
  rw [List.getD_eq_getElem?_getD, List.getElem?_replicate]
  by_cases h : i < n <;> simp [h]

lemma countP_split_async (l : List ElemOutcome) :
    l.countP isAsyncB = l.countP isAsyncOkB + l.countP isAsyncErrB := by
  induction l with
  | nil => rfl
  | cons e t ih =>
    rw [List.countP_cons, List.countP_cons, List.countP_cons, ih]
    cases e with
    | sync res => simp [isAsyncB, isAsyncOkB, isAsyncErrB]
    | async res =>
      cases res with
      | error e0 =>
        simp [isAsyncB, isAsyncOkB, isAsyncErrB]
        omega
      | ok r0 =>
        simp [isAsyncB, isAsyncOkB, isAsyncErrB]
        omega

lemma countP_sync_async (l : List ElemOutcome) (h : ∀ e ∈ l, isSyncErrB e = false) :
    l.countP isSyncOkB + l.countP isAsyncB = l.length := by
  induction l with
  | nil => rfl
  | cons e t ih =>
    have ht := ih (fun x hx => h x (List.mem_cons_of_mem e hx))
    rw [List.countP_cons, List.countP_cons, List.length_cons]
    cases e with
    | sync res =>
      cases res with
      | error e0 =>
        have := h (.sync (.error e0)) (List.mem_cons_self _ _)
        simp [isSyncErrB] at this
      | ok r0 =>
        simp [isSyncOkB, isAsyncB]
        omega
    | async res =>
      simp [isSyncOkB, isAsyncB]
      omega

lemma map_range_elemAt (l : List ElemOutcome) :
    (List.range l.length).map (fun i => elemAt l i) = l := by
  apply List.ext_getElem
  · rw [List.length_map, List.length_range]
  · intro i h1 h2
    rw [List.getElem_map, List.getElem_range]
    show elemAt l i = l[i]
    unfold elemAt
    rw [List.getD_eq_getElem?_getD, List.getElem?_eq_getElem h2]
    rfl

lemma countP_eq_range_filter (p : ElemOutcome → Bool) (l : List ElemOutcome) :
    l.countP p = ((List.range l.length).filter (fun i => p (elemAt l i))).length := by
  conv_lhs => rw [← map_range_elemAt l]
  rw [List.countP_map, ← List.countP_eq_length_filter]
  rfl

lemma haSync_append (a b : List ElemOutcome) : ∀ (k : Nat) (st : HAState),
    haSync (a ++ b) k st = haSync b (k + a.length) (haSync a k st) := by
  induction a with
  | nil =>
    intro k st
    rw [List.nil_append]
    show haSync b k st = haSync b (k + 0) st
    rw [Nat.add_zero]
  | cons e r ih =>
    intro k st
    rw [List.cons_append]
    show haSync (r ++ b) (k + 1) (haSyncStep st k e)
        = haSync b (k + (r.length + 1)) (haSync r (k + 1) (haSyncStep st k e))
    rw [ih (k + 1) (haSyncStep st k e)]
    have harith : k + 1 + r.length = k + (r.length + 1) := by omega
    rw [harith]

end Flatback

namespace Flatback

/-- Claim C5: for a non-empty collection all of whose elements succeed,
exactly one success result is emitted: a sequence of the input's length
with position i holding element i's result, whatever order the
asynchronous completions arrive in; and the elements are initiated in list
order — after the first k initiations exactly the first k elements have
been started. -/
theorem collection_all_success_ordered (elems : List ElemOutcome) (sched : List Nat)
    (hne : elems ≠ [])
    (hok : ∀ el ∈ elems, isSyncErrB el = false ∧ isAsyncErrB el = false)
    (hnd : sched.Nodup)
    (hmem : ∀ i, i ∈ sched ↔ isAsyncB (elemAt elems i) = true) :
    (handleArray elems sched).emissions = [Except.ok (elems.map elemValue)] ∧
    (∀ k i, k ≤ elems.length →
        ((haSync (elems.take k) 0 (initHA elems.length)).initiated.getD i false = true
          ↔ i < k)) := by
  have hnoerr : ∀ el ∈ elems, isSyncErrB el = false := fun el h => (hok el h).1
  have hagree : ∀ j, j < elems.length →
      elems.getD j (.sync (.ok .undefinedV)) = elemAt elems (0 + j) := by
    intro j hj
    rw [Nat.zero_add]
    rfl
  have hlen0 : (initHA elems.length).results.length = (initHA elems.length).initiated.length := by
    show (List.replicate _ (none : Option JVal)).length = (List.replicate _ false).length
    rw [List.length_replicate, List.length_replicate]
  have hbound0 : 0 + elems.length ≤ (initHA elems.length).initiated.length := by
    show 0 + elems.length ≤ (List.replicate elems.length false).length
    rw [List.length_replicate]
    omega
  have hcsle : countSyncOk elems ≤ (elems.length : Int) := by
    unfold countSyncOk
    exact_mod_cast List.countP_le_length _
  have hwc0 : (initHA elems.length).waitingCount
      = countSyncOk elems + ((elems.length : Int) - countSyncOk elems) := by
    show (elems.length : Int) = _
    ring
  obtain ⟨s1, s2, s3, s4, s5, s6, s7⟩ :=
    haSync_ok_spec elems elems 0 (initHA elems.length)
      ((elems.length : Int) - countSyncOk elems) hagree hnoerr rfl hlen0 hbound0 hwc0
      (by omega)
  have hsync_async := countP_sync_async elems hnoerr
  have hA : (elems.length : Int) - countSyncOk elems = (elems.countP isAsyncB : Int) := by
    unfold countSyncOk
    omega
  have hAidx_nodup :
      ((List.range elems.length).filter (fun i => isAsyncB (elemAt elems i))).Nodup :=
    (List.nodup_range _).filter _
  have hmem_Aidx : ∀ i,
      (i ∈ (List.range elems.length).filter (fun i => isAsyncB (elemAt elems i))
        ↔ isAsyncB (elemAt elems i) = true) := by
    intro i
    rw [List.mem_filter, List.mem_range]
    constructor
    · rintro ⟨-, h⟩
      exact h
    · intro h
      exact ⟨isAsyncB_lt elems i h, h⟩
  have hlen_sched : sched.length = elems.countP isAsyncB := by
    have hsub1 : sched ⊆ (List.range elems.length).filter (fun i => isAsyncB (elemAt elems i)) :=
      fun i hi => (hmem_Aidx i).mpr ((hmem i).mp hi)
    have hsub2 : ((List.range elems.length).filter (fun i => isAsyncB (elemAt elems i))) ⊆ sched :=
      fun i hi => (hmem i).mpr ((hmem_Aidx i).mp hi)
    have hle1 := (List.subperm_of_subset hnd hsub1).length_le
    have hle2 := (List.subperm_of_subset hAidx_nodup hsub2).length_le
    have hfl := countP_eq_range_filter isAsyncB elems
    omega
  have hasyncok : ∀ i ∈ sched, isAsyncOkB (elemAt elems i) = true := by
    intro i hi
    have hb := (hmem i).mp hi
    have hilt := isAsyncB_lt elems i hb
    have hkinds := (hok (elemAt elems i) (elemAt_lt_mem elems i hilt)).2
    cases helem : elemAt elems i with
    | sync res =>
      rw [helem] at hb
      simp [isAsyncB] at hb
    | async res =>
      cases res with
      | error e0 =>
        rw [helem] at hkinds
        simp [isAsyncErrB] at hkinds
      | ok r0 => rfl
  have hinit_sched : ∀ i ∈ sched,
      (haSync elems 0 (initHA elems.length)).initiated.getD i false = true := by
    intro i hi
    have hilt := isAsyncB_lt elems i ((hmem i).mp hi)
    exact (s4 i).mpr (Or.inr ⟨Nat.zero_le i, by omega⟩)
  have hlen_res : ∀ i ∈ sched, i < (haSync elems 0 (initHA elems.length)).results.length := by
    intro i hi
    have hilt := isAsyncB_lt elems i ((hmem i).mp hi)
    rw [s2]
    show i < (List.replicate elems.length (none : Option JVal)).length
    rw [List.length_replicate]
    exact hilt
  have hwcS : (haSync elems 0 (initHA elems.length)).waitingCount
      = (sched.length : Int) + 0 := by
    rw [s6, hA, hlen_sched]
    ring
  obtain ⟨f1, f2, f3, f4, f5, f6⟩ :=
    ha_async_ok_spec elems sched (haSync elems 0 (initHA elems.length)) 0 hnd hasyncok
      hinit_sched hlen_res s1 hwcS (Int.le_refl 0)
  have hfull : ∀ i, i < elems.length →
      (handleArray elems sched).results.getD i none = some (elemValue (elemAt elems i)) := by
    intro i hilt
    show (sched.foldl (haAsyncStep elems)
        (haSync elems 0 (initHA elems.length))).results.getD i none = _
    rw [f4 i]
    by_cases hia : i ∈ sched
    · rw [if_pos hia]
    · rw [if_neg hia, s5 i]
      have hnb : isAsyncB (elemAt elems i) = false := by
        cases hb : isAsyncB (elemAt elems i)
        · rfl
        · exact absurd ((hmem i).mpr hb) hia
      have hsok : isSyncOkB (elemAt elems i) = true :=
        isSyncOkB_of_not_err_not_async (hnoerr _ (elemAt_lt_mem elems i hilt)) hnb
      rw [if_pos ⟨Nat.zero_le i, by omega, hsok⟩]
  have hlenF : (handleArray elems sched).results.length = elems.length := by
    show (sched.foldl (haAsyncStep elems)
        (haSync elems 0 (initHA elems.length))).results.length = _
    rw [f2, s2]
    show (List.replicate _ (none : Option JVal)).length = _
    rw [List.length_replicate]
  have hmap : (handleArray elems sched).results.map (fun o => o.getD JVal.undefinedV)
      = elems.map elemValue := by
    apply List.ext_getElem
    · rw [List.length_map, List.length_map, hlenF]
    · intro i h1 h2
      rw [List.getElem_map, List.getElem_map]
      have hilt : i < elems.length := by
        rw [List.length_map, hlenF] at h1
        exact h1
      have hv := hfull i hilt
      rw [getD_eq_getElem _ _ _ (by rw [hlenF]; exact hilt)] at hv
      rw [hv]
      show elemValue (elemAt elems i) = elemValue elems[i]
      congr 1
      unfold elemAt
      rw [List.getD_eq_getElem?_getD, List.getElem?_eq_getElem hilt]
      rfl
  constructor
  · by_cases hsnil : sched = []
    · subst hsnil
      show (haSync elems 0 (initHA elems.length)).emissions = _
      rw [s7]
      have h0 : elems.countP isAsyncB = 0 := by
        rw [← hlen_sched]
        rfl
      have hcs_n : countSyncOk elems = (elems.length : Int) := by
        unfold countSyncOk
        omega
      have hnlen : 0 < elems.length := List.length_pos.mpr hne
      rw [if_pos ⟨by omega, by rw [hcs_n]; exact_mod_cast hnlen⟩]
      rw [show (haSync elems 0 (initHA elems.length)).results.map (fun o => o.getD JVal.undefinedV)
            = elems.map elemValue from hmap]
      rfl
    · have hm_ne : ¬(((elems.length : Int) - countSyncOk elems) = 0
          ∧ 1 ≤ countSyncOk elems) := by
        rintro ⟨h0, -⟩
        have hlne : sched.length ≠ 0 := fun h => hsnil (List.length_eq_zero.mp h)
        rw [hA] at h0
        omega
      have hS1em : (haSync elems 0 (initHA elems.length)).emissions = [] := by
        rw [s7, if_neg hm_ne, List.append_nil]
        rfl
      show (sched.foldl (haAsyncStep elems)
          (haSync elems 0 (initHA elems.length))).emissions = _
      rw [f6, if_pos ⟨rfl, hsnil⟩, hS1em, List.nil_append]
      rw [show (sched.foldl (haAsyncStep elems)
            (haSync elems 0 (initHA elems.length))).results.map (fun o => o.getD JVal.undefinedV)
          = elems.map elemValue from hmap]
  · intro k i hk
    have hagree_t : ∀ j, j < (elems.take k).length →
        (elems.take k).getD j (.sync (.ok .undefinedV)) = elemAt elems (0 + j) := by
      intro j hj
      rw [Nat.zero_add]
      rw [List.length_take] at hj
      have hjk : j < k := by omega
      unfold elemAt
      rw [List.getD_eq_getElem?_getD, List.getD_eq_getElem?_getD,
          List.getElem?_take_of_lt hjk]
    have hnoerr_t : ∀ e ∈ elems.take k, isSyncErrB e = false :=
      fun e he => hnoerr e (List.take_subset k elems he)
    have hcsle_t : countSyncOk (elems.take k) ≤ ((elems.take k).length : Int) := by
      unfold countSyncOk
      exact_mod_cast List.countP_le_length _
    have hlt_t : (elems.take k).length ≤ elems.length := by
      rw [List.length_take]
      omega
    have hwt : (initHA elems.length).waitingCount
        = countSyncOk (elems.take k)
          + ((elems.length : Int) - countSyncOk (elems.take k)) := by
      show (elems.length : Int) = _
      ring
    obtain ⟨-, -, -, t4, -, -, -⟩ :=
      haSync_ok_spec elems (elems.take k) 0 (initHA elems.length)
        ((elems.length : Int) - countSyncOk (elems.take k)) hagree_t hnoerr_t rfl hlen0
        (by show 0 + (elems.take k).length ≤ (List.replicate elems.length false).length
            rw [List.length_replicate]
            omega)
        hwt (by omega)
    rw [t4 i]
    constructor
    · rintro (h | ⟨-, h2⟩)
      · exfalso
        rw [show (initHA elems.length).initiated.getD i false = false from
              replicate_false_getD _ _] at h
        exact Bool.noConfusion h
      · rw [List.length_take] at h2
        omega
    · intro hik
      refine Or.inr ⟨Nat.zero_le i, ?_⟩
      rw [Nat.zero_add, List.length_take]
      omega

/-- Closed instance of `collection_all_success_ordered`: two synchronous
successes, no pending completions. -/
theorem collection_all_success_ordered_witness :
    (handleArray [ElemOutcome.sync (.ok (JVal.num 1)), ElemOutcome.sync (.ok (JVal.num 2))]
        []).emissions
      = [Except.ok ([ElemOutcome.sync (.ok (JVal.num 1)),
          ElemOutcome.sync (.ok (JVal.num 2))].map elemValue)] ∧
    (∀ k i, k ≤ [ElemOutcome.sync (.ok (JVal.num 1)),
        ElemOutcome.sync (.ok (JVal.num 2))].length →
      ((haSync ([ElemOutcome.sync (.ok (JVal.num 1)),
          ElemOutcome.sync (.ok (JVal.num 2))].take k) 0
          (initHA [ElemOutcome.sync (.ok (JVal.num 1)),
            ElemOutcome.sync (.ok (JVal.num 2))].length)).initiated.getD i false = true
        ↔ i < k)) := by
  apply collection_all_success_ordered
  · simp
  · intro el hel
    rcases List.mem_cons.mp hel with rfl | hel2
    · exact ⟨rfl, rfl⟩
    · rcases List.mem_cons.mp hel2 with rfl | hel3
      · exact ⟨rfl, rfl⟩
      · exact absurd hel3 (List.not_mem_nil el)
  · exact List.nodup_nil
  · intro i
    constructor
    · intro h
      exact absurd h (List.not_mem_nil i)
    · intro h
      have hlt := isAsyncB_lt _ i h
      have : i = 0 ∨ i = 1 := by
        simp at hlt
        omega
      rcases this with rfl | rfl <;> exact absurd h (by decide)

end Flatback

namespace Flatback

lemma haAsyncStep_deliver (elems : List ElemOutcome) (st : HAState) (index : Nat)
    (hin : st.initiated.getD index false = true) (res : Except JVal JVal)
    (helem : elemAt elems index = .async res) :
    haAsyncStep elems st index = haDeliver st index res := by
  unfold haAsyncStep
  rw [if_pos hin, helem]

/-- Claim C4: in a collection, the first element failure wins.  If element
j fails synchronously and no earlier element does, exactly one Failure
carrying j's error is emitted, every later or earlier completion
(whatever the asynchronous schedule) is discarded, and the elements after
j are never initiated.  If no element fails synchronously and the first
asynchronous completion to deliver an error is element j, exactly one
Failure carrying j's error is emitted and everything after it is
discarded. -/
theorem collection_first_failure_wins :
    (∀ (elems : List ElemOutcome) (sched : List Nat) (j : Nat) (e : JVal),
        j < elems.length →
        elemAt elems j = .sync (.error e) →
        (∀ i, i < j → isSyncErrB (elemAt elems i) = false) →
        (handleArray elems sched).emissions = [Except.error e] ∧
        (∀ i, j < i → (handleArray elems sched).initiated.getD i false = false)) ∧
    (∀ (elems : List ElemOutcome) (sched1 : List Nat) (j : Nat) (sched2 : List Nat) (e : JVal),
        (∀ el ∈ elems, isSyncErrB el = false) →
        j < elems.length →
        elemAt elems j = .async (.error e) →
        sched1.Nodup →
        (∀ i ∈ sched1, isAsyncOkB (elemAt elems i) = true) →
        (handleArray elems (sched1 ++ j :: sched2)).emissions = [Except.error e]) := by
  constructor
  · intro elems sched j e hjlt hj hbefore
    have hlen0 : (initHA elems.length).results.length
        = (initHA elems.length).initiated.length := by
      show (List.replicate _ (none : Option JVal)).length = (List.replicate _ false).length
      rw [List.length_replicate, List.length_replicate]
    have hlen_take : (elems.take j).length = j := by
      rw [List.length_take]
      omega
    have htake_agree : ∀ idx, idx < (elems.take j).length →
        (elems.take j).getD idx (.sync (.ok .undefinedV)) = elemAt elems (0 + idx) := by
      intro idx hidx
      rw [Nat.zero_add]
      rw [hlen_take] at hidx
      unfold elemAt
      rw [List.getD_eq_getElem?_getD, List.getD_eq_getElem?_getD,
          List.getElem?_take_of_lt hidx]
    have hnoerr_t : ∀ x ∈ elems.take j, isSyncErrB x = false := by
      intro x hx
      rcases List.mem_iff_getElem.mp hx with ⟨idx, hidx, hxeq⟩
      have hidxj : idx < j := by rw [hlen_take] at hidx; omega
      have hxel : x = elemAt elems idx := by
        rw [← hxeq]
        show (elems.take j)[idx] = elemAt elems idx
        unfold elemAt
        rw [List.getD_eq_getElem?_getD, ← List.getElem?_take_of_lt hidxj (l := elems),
            List.getElem?_eq_getElem hidx]
        rfl
      rw [hxel]
      exact hbefore idx hidxj
    have hcsle_t : countSyncOk (elems.take j) ≤ ((elems.take j).length : Int) := by
      unfold countSyncOk
      exact_mod_cast List.countP_le_length _
    have hwt : (initHA elems.length).waitingCount
        = countSyncOk (elems.take j)
          + ((elems.length : Int) - countSyncOk (elems.take j)) := by
      show (elems.length : Int) = _
      ring
    obtain ⟨s1, s2, s3, s4, s5, s6, s7⟩ :=
      haSync_ok_spec elems (elems.take j) 0 (initHA elems.length)
        ((elems.length : Int) - countSyncOk (elems.take j)) htake_agree hnoerr_t rfl hlen0
        (by show 0 + (elems.take j).length ≤ (List.replicate elems.length false).length
            rw [List.length_replicate, hlen_take]
            omega)
        hwt
        (by rw [hlen_take] at hcsle_t
            omega)
    have hm_pos : 1 ≤ (elems.length : Int) - countSyncOk (elems.take j) := by
      rw [hlen_take] at hcsle_t
      omega
    have hS1em : (haSync (elems.take j) 0 (initHA elems.length)).emissions = [] := by
      rw [s7, if_neg (by rintro ⟨h0, -⟩; omega), List.append_nil]
      rfl
    have hsplit : haSync elems 0 (initHA elems.length)
        = haSync (elems.drop j) j (haSync (elems.take j) 0 (initHA elems.length)) := by
      have happ := haSync_append (elems.take j) (elems.drop j) 0 (initHA elems.length)
      rw [List.take_append_drop, Nat.zero_add, hlen_take] at happ
      exact happ
    have hdrop : elems.drop j = elemAt elems j :: elems.drop (j + 1) := by
      rw [List.drop_eq_getElem_cons hjlt]
      congr 1
      unfold elemAt
      rw [List.getD_eq_getElem?_getD, List.getElem?_eq_getElem hjlt]
      rfl
    have hfe2 : (haSyncStep (haSync (elems.take j) 0 (initHA elems.length)) j
        (elemAt elems j)).firstErr = some e := by
      rw [hj, haSyncStep_sync _ j _ s1,
          haDeliver_err { haSync (elems.take j) 0 (initHA elems.length) with
            initiated := (haSync (elems.take j) 0 (initHA elems.length)).initiated.set
              j true } j e s1]
    have hrun : handleArray elems sched
        = haSyncStep (haSync (elems.take j) 0 (initHA elems.length)) j (elemAt elems j) := by
      show sched.foldl (haAsyncStep elems) (haSync elems 0 (initHA elems.length)) = _
      rw [hsplit, hdrop]
      rw [show haSync (elemAt elems j :: elems.drop (j + 1)) j
            (haSync (elems.take j) 0 (initHA elems.length))
          = haSync (elems.drop (j + 1)) (j + 1)
              (haSyncStep (haSync (elems.take j) 0 (initHA elems.length)) j (elemAt elems j))
          from rfl]
      rw [haSync_frozen _ _ _ (by rw [hfe2]; rfl),
          ha_foldl_frozen _ _ _ (by rw [hfe2]; rfl)]
    constructor
    · rw [hrun, hj, haSyncStep_sync _ j _ s1,
          haDeliver_err { haSync (elems.take j) 0 (initHA elems.length) with
            initiated := (haSync (elems.take j) 0 (initHA elems.length)).initiated.set
              j true } j e s1]
      show (haSync (elems.take j) 0 (initHA elems.length)).emissions
          ++ [Except.error e] = [Except.error e]
      rw [hS1em, List.nil_append]
    · intro i hij
      rw [hrun, hj, haSyncStep_sync _ j _ s1,
          haDeliver_err { haSync (elems.take j) 0 (initHA elems.length) with
            initiated := (haSync (elems.take j) 0 (initHA elems.length)).initiated.set
              j true } j e s1]
      show ((haSync (elems.take j) 0 (initHA elems.length)).initiated.set j true).getD
          i false = false
      rw [getD_set_ne _ _ _ (by omega : j ≠ i)]
      cases hb : (haSync (elems.take j) 0 (initHA elems.length)).initiated.getD i false
      · rfl
      · exfalso
        rcases (s4 i).mp hb with h | ⟨-, h2⟩
        · rw [show (initHA elems.length).initiated.getD i false = false from
              replicate_false_getD _ _] at h
          exact Bool.noConfusion h
        · rw [hlen_take] at h2
          omega
  · intro elems sched1 j sched2 e hnoerr hjlt hj hnd1 hasok1
    have hlen0 : (initHA elems.length).results.length
        = (initHA elems.length).initiated.length := by
      show (List.replicate _ (none : Option JVal)).length = (List.replicate _ false).length
      rw [List.length_replicate, List.length_replicate]
    have hagree : ∀ idx, idx < elems.length →
        elems.getD idx (.sync (.ok .undefinedV)) = elemAt elems (0 + idx) := by
      intro idx hidx
      rw [Nat.zero_add]
      rfl
    have hcsle : countSyncOk elems ≤ (elems.length : Int) := by
      unfold countSyncOk
      exact_mod_cast List.countP_le_length _
    have hwc0 : (initHA elems.length).waitingCount
        = countSyncOk elems + ((elems.length : Int) - countSyncOk elems) := by
      show (elems.length : Int) = _
      ring
    obtain ⟨s1, s2, s3, s4, s5, s6, s7⟩ :=
      haSync_ok_spec elems elems 0 (initHA elems.length)
        ((elems.length : Int) - countSyncOk elems) hagree hnoerr rfl hlen0
        (by show 0 + elems.length ≤ (List.replicate elems.length false).length
            rw [List.length_replicate]
            omega)
        hwc0 (by omega)
    have hsync_async := countP_sync_async elems hnoerr
    have hA : (elems.length : Int) - countSyncOk elems
        = (elems.countP isAsyncB : Int) := by
      unfold countSyncOk
      omega
    have hposErr : 0 < elems.countP isAsyncErrB :=
      List.countP_pos_iff.mpr ⟨elemAt elems j, elemAt_lt_mem _ _ hjlt, by rw [hj]; rfl⟩
    have hsplitCnt := countP_split_async elems
    have hsub : sched1 ⊆ (List.range elems.length).filter
        (fun i => isAsyncOkB (elemAt elems i)) := by
      intro i hi
      rw [List.mem_filter, List.mem_range]
      exact ⟨isAsyncB_lt elems i (isAsyncOkB_isAsyncB (hasok1 i hi)), hasok1 i hi⟩
    have hle1 := (List.subperm_of_subset hnd1 hsub).length_le
    have hflen := countP_eq_range_filter isAsyncOkB elems
    have hm1 : 1 ≤ (elems.length : Int) - countSyncOk elems := by
      rw [hA]
      omega
    have hS1em : (haSync elems 0 (initHA elems.length)).emissions = [] := by
      rw [s7, if_neg (by rintro ⟨h0, -⟩; omega), List.append_nil]
      rfl
    have hinit1 : ∀ i ∈ sched1,
        (haSync elems 0 (initHA elems.length)).initiated.getD i false = true := by
      intro i hi
      have hilt := isAsyncB_lt elems i (isAsyncOkB_isAsyncB (hasok1 i hi))
      exact (s4 i).mpr (Or.inr ⟨Nat.zero_le i, by omega⟩)
    have hlenres1 : ∀ i ∈ sched1,
        i < (haSync elems 0 (initHA elems.length)).results.length := by
      intro i hi
      have hilt := isAsyncB_lt elems i (isAsyncOkB_isAsyncB (hasok1 i hi))
      rw [s2]
      show i < (List.replicate elems.length (none : Option JVal)).length
      rw [List.length_replicate]
      exact hilt
    have hwcS : (haSync elems 0 (initHA elems.length)).waitingCount
        = (sched1.length : Int)
          + ((elems.countP isAsyncB : Int) - (sched1.length : Int)) := by
      rw [s6, hA]
      ring
    obtain ⟨f1, f2, f3, f4, f5, f6⟩ :=
      ha_async_ok_spec elems sched1 (haSync elems 0 (initHA elems.length))
        ((elems.countP isAsyncB : Int) - (sched1.length : Int)) hnd1 hasok1 hinit1
        hlenres1 s1 hwcS (by omega)
    have hm2 : 1 ≤ (elems.countP isAsyncB : Int) - (sched1.length : Int) := by
      omega
    have hT1em : (sched1.foldl (haAsyncStep elems)
        (haSync elems 0 (initHA elems.length))).emissions = [] := by
      rw [f6, if_neg (by rintro ⟨h0, -⟩; omega), hS1em, List.append_nil]
    have hT1init : (sched1.foldl (haAsyncStep elems)
        (haSync elems 0 (initHA elems.length))).initiated.getD j false = true := by
      rw [f3]
      exact (s4 j).mpr (Or.inr ⟨Nat.zero_le j, by omega⟩)
    have hstep : haAsyncStep elems
        (sched1.foldl (haAsyncStep elems) (haSync elems 0 (initHA elems.length))) j
        = haDeliver (sched1.foldl (haAsyncStep elems)
            (haSync elems 0 (initHA elems.length))) j (.error e) :=
      haAsyncStep_deliver elems _ j hT1init (.error e) hj
    show ((sched1 ++ j :: sched2).foldl (haAsyncStep elems)
        (haSync elems 0 (initHA elems.length))).emissions = _
    rw [List.foldl_append, List.foldl_cons, hstep, haDeliver_err _ j e f1,
        ha_foldl_frozen _ _ _ (by rfl)]
    show (sched1.foldl (haAsyncStep elems)
        (haSync elems 0 (initHA elems.length))).emissions
        ++ [Except.error e] = [Except.error e]
    rw [hT1em, List.nil_append]

/-- Closed instance of `collection_first_failure_wins`: a single
synchronously failing element. -/
theorem collection_first_failure_wins_witness :
    (handleArray [ElemOutcome.sync (.error (JVal.str "bad"))] []).emissions
      = [Except.error (JVal.str "bad")] ∧
    (∀ i, 0 < i →
      (handleArray [ElemOutcome.sync (.error (JVal.str "bad"))] []).initiated.getD i false
        = false) :=
  collection_first_failure_wins.1 [ElemOutcome.sync (.error (JVal.str "bad"))] [] 0
    (JVal.str "bad") (by simp) rfl (fun i h => absurd h (Nat.not_lt_zero i))

end Flatback
